import Mathlib

set_option linter.unusedVariables false

/- ===================================================================
   Definitions: shallow embedding of the program
   =================================================================== -/

/-!
Verification development for the LLM-benchmark orchestration core
(`on24llmoptimizer`): a shallow embedding in Lean 4 of the benchmark
engine, the citation classifier, the response normalizer, the retry
policy of the provider clients, and the metrics/winner engine, together
with theorems settling the specified behavioural claims.

Source files embedded: `src/db/database.py`, `src/analysis/metrics.py`,
`src/analysis/parser.py`, `src/benchmark/engine.py`, and the tenacity
retry configuration shared by the three provider clients in
`src/benchmark/`.
-/

/- ===================================================================
   Configuration (src/config/settings.py, src/config/brands.py)
   =================================================================== -/

/-- Tracked brand keys, `TRACKED_BRANDS` in `src/config/settings.py`. -/
def TRACKED_BRANDS : List String := ["on24", "goldcast", "zoom"]

/-- One entry of `BRAND_DEFINITIONS` (src/config/brands.py): the fields
used by `ResponseParser._resolve_brand` (key, display name, aliases). -/
structure BrandDefn where
  key : String
  display_name : String
  aliases : List String
deriving Repr, DecidableEq

/-- The `BRAND_DEFINITIONS` table of `src/config/brands.py`, restricted to
the fields the embedded code reads, in dict insertion order. -/
def BRAND_DEFINITIONS : List BrandDefn :=
  [ { key := "on24", display_name := "ON24",
      aliases := ["on24", "on 24", "on24.com"] },
    { key := "goldcast", display_name := "Goldcast",
      aliases := ["goldcast", "goldcast.io", "gold cast"] },
    { key := "zoom", display_name := "Zoom (Webinars/Events)",
      aliases := ["zoom webinar", "zoom webinars", "zoom events"] } ]

/- ===================================================================
   Small Python string primitives used by the embedded code
   =================================================================== -/

/-- Python's substring test `needle in hay` on strings. -/
def containsList : List Char → List Char → Bool
  | needle, [] => needle.isEmpty
  | needle, c :: rest => needle.isPrefixOf (c :: rest) || containsList needle rest

/-- Python's `needle in hay` for strings. -/
def pyIn (needle hay : String) : Bool :=
  containsList needle.toList hay.toList

/-- Python's `s.lstrip("www.")`: removes every leading character drawn
from the character set of the argument, here the set consisting of the
letter w and the dot (not the literal word plus dot). -/
def lstripWWWDot (s : String) : String :=
  ⟨s.toList.dropWhile (fun c => c == 'w' || c == '.')⟩

/-- ASCII lower-casing of one character.  The embedded code applies
Python's `str.lower` only to URL hosts and brand identifier strings, for
which ASCII case-mapping coincides with Python's behaviour. -/
def lowerChar (c : Char) : Char :=
  match c with
  | 'A' => 'a' | 'B' => 'b' | 'C' => 'c' | 'D' => 'd' | 'E' => 'e'
  | 'F' => 'f' | 'G' => 'g' | 'H' => 'h' | 'I' => 'i' | 'J' => 'j'
  | 'K' => 'k' | 'L' => 'l' | 'M' => 'm' | 'N' => 'n' | 'O' => 'o'
  | 'P' => 'p' | 'Q' => 'q' | 'R' => 'r' | 'S' => 's' | 'T' => 't'
  | 'U' => 'u' | 'V' => 'v' | 'W' => 'w' | 'X' => 'x' | 'Y' => 'y'
  | 'Z' => 'z' | c => c

/-- Python's `s.lower()` restricted to ASCII case-mapping. -/
def pyLower (s : String) : String :=
  ⟨s.toList.map lowerChar⟩

/-- Suffix test on strings (`comp` ends with `suffix`), used only to state
the specification's reading of "matching against a domain suffix list". -/
def strEndsWith (suffix s : String) : Bool :=
  suffix.toList.isSuffixOf s.toList

/- ===================================================================
   urlparse netloc extraction (urllib.parse.urlparse, as used by
   DatabaseManager._classify_citation_domain on absolute URLs)
   =================================================================== -/

/-- Characters allowed in a URL scheme after the first letter. -/
def isSchemeChar (c : Char) : Bool :=
  c.isAlphanum || c == '+' || c == '-' || c == '.'

/-- Drop a leading `scheme:` from a URL character list if present, per
urllib's rule: the part before the first colon must be nonempty, start
with a letter, and consist of scheme characters. -/
def dropScheme (l : List Char) : List Char :=
  let pre := l.takeWhile (fun c => c ≠ ':')
  if pre.length < l.length ∧ pre ≠ [] ∧
      (pre.headD 'a').isAlpha ∧ pre.all isSchemeChar then
    l.drop (pre.length + 1)
  else l

/-- The network-location (host) component of a URL, as
`urllib.parse.urlparse(url).netloc` computes it: present exactly when,
after removing a leading `scheme:`, the remainder starts with two
slashes; it then extends to the next `/`, `?` or `#`. -/
def urlparseNetloc (u : String) : String :=
  let rest := dropScheme u.toList
  if rest.take 2 = ['/', '/'] then
    ⟨(rest.drop 2).takeWhile (fun c => !(c == '/' || c == '?' || c == '#'))⟩
  else ""

/- ===================================================================
   Citation classifier
   (DatabaseManager._classify_citation_domain, src/db/database.py:160-184)
   =================================================================== -/

/-- Result record of `_classify_citation_domain`.  The source stores the
two flags as the integers 0/1; they are embedded as booleans. -/
structure CitationClass where
  url_domain : String
  brand_association : String
  is_on24_www : Bool
  is_on24_event : Bool
deriving Repr, DecidableEq

/-- `DatabaseManager._classify_citation_domain` (src/db/database.py):
lower-cases the parsed host, applies `lstrip("www.")` for the comparison
host, keeps the full lowered host as `url_domain`, and assigns the brand
by Python substring containment tests in the order on24, goldcast, zoom;
for on24 it sets the event flag when `event.on24.com` occurs in the full
host and the www flag otherwise. -/
def classifyCitationDomain (url : String) : CitationClass :=
  let netloc := urlparseNetloc url
  let domain := if netloc ≠ "" then lstripWWWDot (pyLower netloc) else ""
  let full_domain := if netloc ≠ "" then pyLower netloc else ""
  if pyIn "on24.com" domain then
    { url_domain := full_domain, brand_association := "on24",
      is_on24_www := !(pyIn "event.on24.com" full_domain),
      is_on24_event := pyIn "event.on24.com" full_domain }
  else if pyIn "goldcast.io" domain then
    { url_domain := full_domain, brand_association := "goldcast",
      is_on24_www := false, is_on24_event := false }
  else if pyIn "zoom.us" domain then
    { url_domain := full_domain, brand_association := "zoom",
      is_on24_www := false, is_on24_event := false }
  else
    { url_domain := full_domain, brand_association := "other",
      is_on24_www := false, is_on24_event := false }

/-- The comparison host as the specification describes it: the URL's
host with one leading `www.` prefix (the literal four-character string)
removed when present.  This follows the spec's words, for comparison
with `classifyCitationDomain`, which instead strips the character set. -/
def specComparisonHost (url : String) : String :=
  let host := pyLower (urlparseNetloc url)
  if ("www.").toList.isPrefixOf host.toList then
    ⟨host.toList.drop 4⟩
  else host

/-- The tracked brands' domains in classifier order, paired with keys. -/
def trackedDomainList : List (String × String) :=
  [("on24.com", "on24"), ("goldcast.io", "goldcast"), ("zoom.us", "zoom")]

/-- The comparison host exactly as the code computes it: the lowercased
host with all leading characters from the set w and dot removed. -/
def codeComparisonHost (url : String) : String :=
  lstripWWWDot (pyLower (urlparseNetloc url))

/- ===================================================================
   Response normalizer (ResponseParser, src/analysis/parser.py)
   =================================================================== -/

/-- JSON values as produced by `json.loads` inside
`ResponseParser.parse_response`.  Python's `None` and JSON `null`
coincide there, so a single null constructor serves for both. -/
inductive Json where
  | null
  | bool (b : Bool)
  | num (q : ℚ)
  | str (s : String)
  | arr (elems : List Json)
  | obj (fields : List (String × Json))

/-- Python truthiness of a decoded JSON value, as used by the `or`
chains and the `bool(...)` coercion in `_normalize`. -/
def truthy : Json → Bool
  | .null => false
  | .bool b => b
  | .num q => decide (q ≠ 0)
  | .str s => decide (s ≠ "")
  | .arr l => !l.isEmpty
  | .obj l => !l.isEmpty

/-- Python's `a or b` on decoded JSON values. -/
def pyOr (a b : Json) : Json :=
  if truthy a then a else b

/-- First binding of a key in a decoded JSON object.  `json.loads`
produces dictionaries with distinct keys, so first match is exact. -/
def lookupFirst (fs : List (String × Json)) (k : String) : Option Json :=
  match fs with
  | [] => none
  | (k2, v) :: rest => if k2 = k then some v else lookupFirst rest k

/-- Python's `m.get(k, dflt)`: succeeds on dictionaries, raises
AttributeError on every other value. -/
def objGetD (m : Json) (k : String) (dflt : Json) : Except String Json :=
  match m with
  | .obj fs => .ok ((lookupFirst fs k).getD dflt)
  | _ => .error "AttributeError: get"

/-- Strip ASCII whitespace from both ends, Python's `str.strip()`. -/
def pyStrip (s : String) : String :=
  ⟨((s.toList.dropWhile Char.isWhitespace).reverse.dropWhile Char.isWhitespace).reverse⟩

/-- Python's `.lower().strip()` applied to a decoded JSON value: only
strings support it, anything else raises AttributeError. -/
def lowerStrip (j : Json) : Except String String :=
  match j with
  | .str s => .ok (pyStrip (pyLower s))
  | _ => .error "AttributeError: lower"

/-- Numeric value of a digit-character list (most significant first). -/
def digitsVal (l : List Char) : ℚ :=
  l.foldl (fun acc c => acc * 10 + ((c.toNat - 48 : ℕ) : ℚ)) 0

/-- Parse a plain decimal literal (optional sign, digits, optional
fractional part), the fragment of Python `float(str)` exercised by the
inputs considered here; exponents, infinities, embedded underscores and
surrounding whitespace are outside that fragment and rejected. -/
def parseDecimal? (s : String) : Option ℚ :=
  let (sign, l) : ℚ × List Char :=
    match s.toList with
    | '-' :: r => (-1, r)
    | '+' :: r => (1, r)
    | r => (1, r)
  let ip := l.takeWhile Char.isDigit
  let rest := l.drop ip.length
  match rest with
  | [] => if ip ≠ [] then some (sign * digitsVal ip) else none
  | '.' :: fp =>
    if fp.all Char.isDigit ∧ (ip ≠ [] ∨ fp ≠ []) then
      some (sign * (digitsVal ip + digitsVal fp / (10 : ℚ) ^ fp.length))
    else none
  | _ => none

/-- Python's `float(x)` on a decoded JSON value: numbers and booleans
coerce, decimal-literal strings parse, `None` and every other shape
raise (TypeError / ValueError). -/
def pyFloat : Json → Except String ℚ
  | .num q => .ok q
  | .bool b => .ok (if b then 1 else 0)
  | .str s =>
    match parseDecimal? s with
    | some q => .ok q
    | none => .error "ValueError: could not convert string to float"
  | .null => .error "TypeError: float() argument must not be None"
  | .arr _ => .error "TypeError: float() argument"
  | .obj _ => .error "TypeError: float() argument"

/-- The module constant `VALID_BRANDS` of src/analysis/parser.py. -/
def VALID_BRANDS : List String := ["on24", "goldcast", "zoom", "other"]

/-- Loop body of `ResponseParser._resolve_brand` over the brand table:
first an exact key / lowered-alias match, then a substring test of the
lowered display name inside the brand string, else the next entry. -/
def resolveBrandGo : List BrandDefn → String → String
  | [], _ => "other"
  | d :: rest, b =>
    if b = d.key ∨ b ∈ d.aliases.map pyLower then d.key
    else if pyIn (pyLower d.display_name) b then d.key
    else resolveBrandGo rest b

/-- `ResponseParser._resolve_brand` (src/analysis/parser.py:92-100). -/
def resolveBrand (brand_str : String) : String :=
  resolveBrandGo BRAND_DEFINITIONS (pyStrip (pyLower brand_str))

/-- One normalized mention as `_normalize` builds it.  The position,
context and sentiment fields are stored exactly as the decoded JSON
value provides them, so they stay `Json` here. -/
structure NormMention where
  brand : String
  position : Json
  context : Json
  sentiment : Json
  sentiment_score : ℚ
  is_primary_recommendation : Bool

/-- Python iteration over the value selected as the mention list:
lists iterate their elements, strings their one-character substrings,
dictionaries their keys; other values raise TypeError. -/
def iterElems : Json → Except String (List Json)
  | .arr l => .ok l
  | .str s => .ok (s.toList.map (fun c => .str ⟨[c]⟩))
  | .obj fs => .ok (fs.map (fun p => .str p.1))
  | .null => .error "TypeError: not iterable"
  | .bool _ => .error "TypeError: not iterable"
  | .num _ => .error "TypeError: not iterable"

/-- The per-entry body of the loop in `_normalize`
(src/analysis/parser.py:70-83).  On a non-dictionary entry the first
`.get` raises AttributeError; on a dictionary, `.get` always succeeds
and the two fallible operations, in source order, are the
`.lower().strip()` on the brand value and the `float(...)` on the
sentiment-score value. -/
def processEntry (m : Json) : Except String NormMention :=
  match m with
  | .obj fs =>
    match lowerStrip (pyOr ((lookupFirst fs "brand").getD .null)
        (pyOr ((lookupFirst fs "brand_id").getD .null) (.str "other"))) with
    | .error e => .error e
    | .ok brand0 =>
      let brand := if brand0 ∈ VALID_BRANDS then brand0 else resolveBrand brand0
      match pyFloat ((lookupFirst fs "sentiment_score").getD (.num 0)) with
      | .error e => .error e
      | .ok sscore =>
        .ok { brand := brand,
              position := pyOr ((lookupFirst fs "position").getD .null)
                ((lookupFirst fs "mention_order").getD (.num 1)),
              context := (lookupFirst fs "context").getD (.str ""),
              sentiment := (lookupFirst fs "sentiment").getD (.str "neutral"),
              sentiment_score := sscore,
              is_primary_recommendation :=
                truthy ((lookupFirst fs "is_primary_recommendation").getD (.bool false)) }
  | _ => .error "AttributeError: get"

/-- The structured result of `parse_response`: the mention list plus the
remaining fields of the returned dictionary; `parse_error` is the
diagnostic marker present only on the degraded path. -/
structure ParseResult where
  mentions : List NormMention
  brands_not_mentioned : Json
  overall_winner : Json
  zoom_context_is_webinar : Json
  parse_error : Option String

/-- The for-loop of `_normalize` over the mention entries: stops at the
first entry whose processing raises, surfacing that error. -/
def mapExcept (f : Json → Except String NormMention) :
    List Json → Except String (List NormMention)
  | [] => .ok []
  | x :: xs =>
    match f x with
    | .error e => .error e
    | .ok y =>
      match mapExcept f xs with
      | .error e => .error e
      | .ok ys => .ok (y :: ys)

/-- `ResponseParser._normalize` (src/analysis/parser.py:67-90).  On a
non-dictionary top-level value the first `.get` raises AttributeError;
on a dictionary the fallible steps are iterating the selected mention
value and the per-entry loop. -/
def normalizeParsed (parsed : Json) : Except String ParseResult :=
  match parsed with
  | .obj fs =>
    match iterElems (pyOr ((lookupFirst fs "mentions").getD .null)
        ((lookupFirst fs "brands_mentioned").getD (.arr []))) with
    | .error e => .error e
    | .ok elems =>
      match mapExcept processEntry elems with
      | .error e => .error e
      | .ok normalized =>
        .ok { mentions := normalized,
              brands_not_mentioned := (lookupFirst fs "brands_not_mentioned").getD (.arr []),
              overall_winner := (lookupFirst fs "overall_winner").getD (.str "none"),
              zoom_context_is_webinar :=
                (lookupFirst fs "zoom_context_is_webinar").getD (.bool true),
              parse_error := none }
  | _ => .error "AttributeError: get"

/-- The degraded dictionary returned by the except-clause of
`parse_response` (src/analysis/parser.py:58-65). -/
def degradedParseResult (e : String) : ParseResult :=
  { mentions := [],
    brands_not_mentioned := .arr [.str "on24", .str "goldcast", .str "zoom"],
    overall_winner := .str "none",
    zoom_context_is_webinar := .bool true,
    parse_error := some e }

/-- `ResponseParser.parse_response` (src/analysis/parser.py:41-65).  The
argument models the combined outcome of the secondary Claude call, the
fenced-code-block extraction (which itself cannot raise: both indexing
steps are guarded by the containment tests) and `json.loads`: `.error`
when any of those raised, `.ok` with the decoded value otherwise.  The
except-clause includes `Exception`, so every failure, there or inside
`_normalize`, lands in the degraded dictionary; the function is total. -/
def parseResponse (secondary : Except String Json) : ParseResult :=
  match secondary with
  | .error e => degradedParseResult e
  | .ok parsed =>
    match normalizeParsed parsed with
    | .error e => degradedParseResult e
    | .ok res => res

/-- Whether the parse pipeline fails on the given input (the secondary
call or decode raised, or `_normalize` raised). -/
def parsePipelineFails (secondary : Except String Json) : Bool :=
  match secondary with
  | .error _ => true
  | .ok parsed =>
    match normalizeParsed parsed with
    | .error _ => true
    | .ok _ => false

/-- A mention entry on which the loop body of `_normalize` raises for
the reasons the claim names: the entry is not an object, or its stored
sentiment_score value makes `float(...)` raise. -/
def mentionEntryMalformed (m : Json) : Bool :=
  match m with
  | .obj fs =>
    match pyFloat ((lookupFirst fs "sentiment_score").getD (.num 0)) with
    | .error _ => true
    | .ok _ => false
  | _ => true

/- ===================================================================
   Metrics and winner engine
   (MetricsCalculator, src/analysis/metrics.py)
   =================================================================== -/

/-- One `daily_metrics` row as `MetricsCalculator` writes and
`_compute_winners` reads it.  The source stores booleans as 0/1
integers; sentiment labels are strings here (the values the parser's
schema instruction produces). -/
structure MetricRow where
  query_id : Nat
  llm_engine : String
  brand : String
  is_mentioned : Bool
  mention_count : Nat
  first_mention_position : Option Int
  is_primary_recommendation : Bool
  avg_sentiment_score : Option ℚ
  dominant_sentiment : Option String
  citation_count : Nat
  www_citation_count : Nat
  event_citation_count : Nat
  is_winner : Bool
deriving Repr, DecidableEq

/-- The score accumulated for one mentioned row by `_compute_winners`
(src/analysis/metrics.py:78-84): +100 when the primary flag is set,
+10/position when the stored first-mention position is truthy (present
and nonzero), +5·sentiment when the average sentiment is present.
Python's float arithmetic is embedded as exact rational arithmetic. -/
def winnerScore (m : MetricRow) : ℚ :=
  (if m.is_primary_recommendation then 100 else 0) +
  (match m.first_mention_position with
   | some p => if p ≠ 0 then 10 / (p : ℚ) else 0
   | none => 0) +
  (match m.avg_sentiment_score with
   | some s => s * 5
   | none => 0)

/-- The selection loop of `_compute_winners` over one (query, provider)
group, tracking the running best row by its position in the group list:
rows that are not mentioned are skipped, and a row replaces the best
exactly when its score strictly exceeds the best score so far. -/
def winnersFoldAux : List MetricRow → Nat → Option Nat → ℚ → Option Nat
  | [], _, best, _ => best
  | m :: rest, i, best, bestScore =>
    if m.is_mentioned then
      if bestScore < winnerScore m then
        winnersFoldAux rest (i + 1) (some i) (winnerScore m)
      else winnersFoldAux rest (i + 1) best bestScore
    else winnersFoldAux rest (i + 1) best bestScore

/-- Position of the winning row of one group, starting from no best row
and the sentinel best score -999, as in `_compute_winners`. -/
def winnerIndex (group : List MetricRow) : Option Nat :=
  winnersFoldAux group 0 none (-999)

/-- The write-back of `_compute_winners` and `set_winner`: every row
keeps its data, and the winner flag becomes true exactly on the row the
selection chose (rows are identified by their database id, embedded as
the position in the group list). -/
def applyFlagsAux (w : Option Nat) : List MetricRow → Nat → List MetricRow
  | [], _ => []
  | m :: rest, i =>
    { m with is_winner := decide (w = some i) } :: applyFlagsAux w rest (i + 1)

/-- Winner flags of one (query, provider) group after
`_compute_winners` ran on it. -/
def applyWinnerFlags (group : List MetricRow) : List MetricRow :=
  applyFlagsAux (winnerIndex group) group 0

/-- The scoring rule exactly as the claim states it: the position term
is added when the position is present and strictly positive. -/
def claimScore (m : MetricRow) : ℚ :=
  (if m.is_primary_recommendation then 100 else 0) +
  (match m.first_mention_position with
   | some p => if 0 < p then 10 / (p : ℚ) else 0
   | none => 0) +
  (match m.avg_sentiment_score with
   | some s => s * 5
   | none => 0)

/-- Data-model well-formedness of a metric row (spec section 3): a
stored first-mention position is an ordinal (at least 1) and a stored
average sentiment lies in [-1, 1]. -/
def metricRowWellFormed (m : MetricRow) : Bool :=
  (match m.first_mention_position with
   | some p => decide (1 ≤ p)
   | none => true) &&
  (match m.avg_sentiment_score with
   | some s => decide (-1 ≤ s ∧ s ≤ 1)
   | none => true)

/-- A concrete three-row group for the C1 witness: a primary
recommendation mentioned first, a second mentioned brand, and one
unmentioned brand. -/
def winnerWitnessGroup : List MetricRow :=
  [ { query_id := 1, llm_engine := "grok_web_search", brand := "on24",
      is_mentioned := true, mention_count := 1,
      first_mention_position := some 1, is_primary_recommendation := true,
      avg_sentiment_score := some 1, dominant_sentiment := some "positive",
      citation_count := 0, www_citation_count := 0, event_citation_count := 0,
      is_winner := false },
    { query_id := 1, llm_engine := "grok_web_search", brand := "goldcast",
      is_mentioned := true, mention_count := 1,
      first_mention_position := some 2, is_primary_recommendation := false,
      avg_sentiment_score := some 0, dominant_sentiment := some "neutral",
      citation_count := 0, www_citation_count := 0, event_citation_count := 0,
      is_winner := false },
    { query_id := 1, llm_engine := "grok_web_search", brand := "zoom",
      is_mentioned := false, mention_count := 0,
      first_mention_position := none, is_primary_recommendation := false,
      avg_sentiment_score := none, dominant_sentiment := none,
      citation_count := 0, www_citation_count := 0, event_citation_count := 0,
      is_winner := false } ]

/- ===================================================================
   Benchmark orchestrator (BenchmarkEngine, src/benchmark/engine.py)
   =================================================================== -/

/-- The three provider engines, `ENGINES` in src/benchmark/engine.py. -/
def ENGINES : List String := ["grok_web_search", "chatgpt_web_search", "claude_parametric"]

/-- One mention row as stored by `store_mention` for a response.
Positions are the integer ordinals of the data model (the parser
coerces a missing position to 1); a sentiment score may be NULL. -/
structure MentionData where
  brand : String
  position : Int
  context : String
  sentiment : String
  sentiment_score : Option ℚ
  is_primary_recommendation : Bool
deriving Repr, DecidableEq

/-- One citation as a provider client returns it (url and title). -/
structure CitationData where
  url : String
  title : String
deriving Repr, DecidableEq

/-- Response metadata: absent, a serialized usage record from the
client, or the serialized error object `log_error` writes. -/
inductive RespMeta where
  | noMeta
  | usage (u : String)
  | errJson (msg : String)
deriving Repr, DecidableEq

/-- The outcome of one work item's client call plus normalization:
either the data the item would store, or the message of the exception
it raised.  A fixed outcome per (query, provider) pair is the
determinism assumption under which run results can be compared. -/
inductive ItemOutcome where
  | ok (model : String) (raw : String) (usage : String)
      (mentions : List MentionData) (citations : List CitationData)
  | err (msg : String)

/-- One stored citation row: `store_citation` classifies the URL at
insert time (src/db/database.py:146-155). -/
structure CitationRow where
  url : String
  url_domain : String
  title : String
  brand_association : String
  is_on24_www : Bool
  is_on24_event : Bool
deriving Repr, DecidableEq

/-- Build the stored citation row from a returned citation. -/
def mkCitationRow (c : CitationData) : CitationRow :=
  let cls := classifyCitationDomain c.url
  { url := c.url, url_domain := cls.url_domain, title := c.title,
    brand_association := cls.brand_association,
    is_on24_www := cls.is_on24_www, is_on24_event := cls.is_on24_event }

/-- One `responses` row together with the mention and citation rows
stored for it (they are keyed by the response id in the database). -/
structure ResponseRec where
  query_id : Nat
  llm_engine : String
  model_name : String
  raw_response : String
  response_metadata : RespMeta
  mentions : List MentionData
  citations : List CitationRow
deriving Repr, DecidableEq

/-- `BenchmarkEngine._run_single` (src/benchmark/engine.py:65-108) for
one (query, provider) pair: on success it stores the response, all
parsed mentions, and the citations with a nonempty url; on any raised
exception it stores the error placeholder `log_error` writes (model
name 'error', empty text, serialized error metadata) with no mention
and no citation rows, and the run continues. -/
def runSingle (env : Nat × String → ItemOutcome) (p : Nat × String) : ResponseRec :=
  match env p with
  | .ok model raw usage ms cs =>
    { query_id := p.1, llm_engine := p.2, model_name := model,
      raw_response := raw, response_metadata := .usage usage,
      mentions := ms,
      citations := (cs.filter (fun c => c.url ≠ "")).map mkCitationRow }
  | .err msg =>
    { query_id := p.1, llm_engine := p.2, model_name := "error",
      raw_response := "", response_metadata := .errJson msg,
      mentions := [], citations := [] }

/-- The (query, provider) pair of a stored response. -/
def pairOf (r : ResponseRec) : Nat × String := (r.query_id, r.llm_engine)

/-- `BenchmarkEngine._get_completed_pairs` membership test
(src/benchmark/engine.py:57-63): a pair is completed when some stored
response for the run has that pair and a model name other than
'error'. -/
def isCompletedIn (resps : List ResponseRec) (p : Nat × String) : Bool :=
  resps.any (fun r => r.query_id = p.1 ∧ r.llm_engine = p.2 ∧ r.model_name ≠ "error")

/-- The full work set of a run: every active query crossed with every
engine, in the source's loop order (queries outer, engines inner). -/
def workPairs (activeQueries : List Nat) : List (Nat × String) :=
  activeQueries.flatMap (fun q => ENGINES.map (fun e => (q, e)))

/-- The work items of `BenchmarkEngine.run`
(src/benchmark/engine.py:129-133): all pairs of the work set not yet
completed in the stored responses. -/
def workItems (resps : List ResponseRec) (activeQueries : List Nat) :
    List (Nat × String) :=
  (workPairs activeQueries).filter (fun p => !(isCompletedIn resps p))

/- ===================================================================
   Daily-metric computation (MetricsCalculator.compute_daily_metrics)
   =================================================================== -/

/-- First occurrences of the elements of a list, in order. -/
def dedupFirstAux : List String → List String → List String
  | [], _ => []
  | x :: xs, seen =>
    if x ∈ seen then dedupFirstAux xs seen
    else x :: dedupFirstAux xs (x :: seen)

/-- Deterministic embedding of `max(set(sentiments),
key=sentiments.count)`: the first distinct element attaining the
maximal count.  Python iterates the set in an unspecified order; the
specification documents the tie-break as accepted nondeterminism and
this model fixes the first-seen choice. -/
def firstMode (l : List String) : Option String :=
  (dedupFirstAux l []).foldl
    (fun best x =>
      match best with
      | none => some x
      | some b => if l.count b < l.count x then some x else best)
    none

/-- The daily-metric row `compute_daily_metrics`
(src/analysis/metrics.py:22-59) builds for one response and one tracked
brand and hands to `store_daily_metric`, which writes it with the
winner flag cleared.  The run date and query category columns are
functions of the run and the query alone and are omitted from the
embedded row. -/
def metricRowOf (resp : ResponseRec) (brand : String) : MetricRow :=
  let bm := resp.mentions.filter (fun m => m.brand = brand)
  let bc := resp.citations.filter (fun c => c.brand_association = brand)
  let scores := bm.filterMap (fun m => m.sentiment_score)
  { query_id := resp.query_id, llm_engine := resp.llm_engine, brand := brand,
    is_mentioned := !bm.isEmpty,
    mention_count := bm.length,
    first_mention_position :=
      match bm.map (fun m => m.position) with
      | [] => none
      | x :: xs => some (xs.foldl min x),
    is_primary_recommendation := bm.any (fun m => m.is_primary_recommendation),
    avg_sentiment_score :=
      if bm.isEmpty then none
      else some (if scores.isEmpty then 0 else scores.sum / scores.length),
    dominant_sentiment :=
      if bm.isEmpty then none else firstMode (bm.map (fun m => m.sentiment)),
    citation_count := bc.length,
    www_citation_count :=
      if brand = "on24" then (bc.filter (fun c => c.is_on24_www)).length else 0,
    event_citation_count :=
      if brand = "on24" then (bc.filter (fun c => c.is_on24_event)).length else 0,
    is_winner := false }

/-- The (query, provider, brand) key of a daily-metric row. -/
def metricKey (m : MetricRow) : Nat × String × String :=
  (m.query_id, m.llm_engine, m.brand)

/-- The (query, provider) group key of a daily-metric row. -/
def groupKey (m : MetricRow) : Nat × String := (m.query_id, m.llm_engine)

/-- `INSERT OR REPLACE` into `daily_metrics`.  Modelled from the spec:
the schema file (db/schema.sql) is not part of the source tree, and the
spec declares exactly one DailyMetric row per (run, query, provider,
brand) tuple with replace-in-place recomputation, so the insert is
keyed on that tuple; SQLite's REPLACE deletes the conflicting row and
appends the new row at the end. -/
def insertReplace (tbl : List MetricRow) (r : MetricRow) : List MetricRow :=
  (tbl.filter (fun t => metricKey t ≠ metricKey r)) ++ [r]

/-- The non-error responses of a run in insertion order, as
`get_responses_for_run` returns them (src/db/database.py:125-129). -/
def responsesNonError (resps : List ResponseRec) : List ResponseRec :=
  resps.filter (fun r => r.model_name ≠ "error")

/-- The inner brand loop of `compute_daily_metrics`: store one
daily-metric row per tracked brand for one response. -/
def brandFold (tbl : List MetricRow) (r : ResponseRec) : List MetricRow :=
  TRACKED_BRANDS.foldl (fun t2 b => insertReplace t2 (metricRowOf r b)) tbl

/-- The insert loop of `compute_daily_metrics`: for each non-error
response of the run (in id order) and each tracked brand, store the
daily-metric row. -/
def tableFold (P : List ResponseRec) : List MetricRow :=
  P.foldl brandFold []

/-- The `daily_metrics` table after the insert loop of
`compute_daily_metrics` ran over the stored responses. -/
def metricsTable (resps : List ResponseRec) : List MetricRow :=
  tableFold (responsesNonError resps)

/-- The rows of one (query, provider) group in table order, as the
grouping dict of `_compute_winners` collects them. -/
def groupRows (tbl : List MetricRow) (k : Nat × String) : List MetricRow :=
  tbl.filter (fun m => groupKey m = k)

/-- Winner write-back over the whole table: a row is flagged exactly
when the selection over its (query, provider) group picked the position
this row occupies within its group (`set_winner` flags the chosen row
by its database id; ids are embedded as positions). -/
def applyWinnersGo (tbl : List MetricRow) : List MetricRow → Nat → List MetricRow
  | [], _ => []
  | m :: rest, j =>
    { m with is_winner :=
        decide (winnerIndex (groupRows tbl (groupKey m)) =
          some (((tbl.take j).filter (fun t => groupKey t = groupKey m)).length)) }
      :: applyWinnersGo tbl rest (j + 1)

/-- `MetricsCalculator._compute_winners` (src/analysis/metrics.py:63-90)
applied to the stored table. -/
def applyWinnersTable (tbl : List MetricRow) : List MetricRow :=
  applyWinnersGo tbl tbl 0

/-- `MetricsCalculator.compute_daily_metrics` end to end: build the
daily-metric rows from the run's responses, then set the winner
flags. -/
def computeDailyMetrics (resps : List ResponseRec) : List MetricRow :=
  applyWinnersTable (metricsTable resps)

/-- The final state of a run in the embedded model. -/
structure RunResult where
  responses : List ResponseRec
  metrics : List MetricRow
  status : String
deriving Repr, DecidableEq

/-- `BenchmarkEngine.run` (src/benchmark/engine.py:110-174) from the
stored responses `s0` of the run being executed or resumed: compute the
completed pairs, execute every work-set pair not yet completed, then
recompute metrics and mark the run completed.  When the work list is
empty the source skips the executor and goes straight to metric
aggregation and completion; executing the empty list is that same
path.  Work items are executed by a thread pool in unspecified
completion order; the model stores them in work-list order, and the
claims compare runs only through per-key lookups that do not depend on
that order. -/
def benchmarkRun (env : Nat × String → ItemOutcome) (activeQueries : List Nat)
    (s0 : List ResponseRec) : RunResult :=
  let work := workItems s0 activeQueries
  let s1 := s0 ++ work.map (runSingle env)
  { responses := s1, metrics := computeDailyMetrics s1, status := "completed" }

/-- Lookup of the daily-metric row stored under one (query, provider,
brand) key. -/
def metricLookup (tbl : List MetricRow) (k : Nat × String × String) :
    Option MetricRow :=
  (tbl.filter (fun m => metricKey m = k)).head?

/-- An environment where the first engine always raises and the others
succeed, for the C7 witness. -/
def c7Env : Nat × String → ItemOutcome := fun p =>
  if p.2 = "grok_web_search" then .err "boom"
  else .ok "gpt-4o" "answer text" "usage" [] []

/-- The winning row of the witness group with its flag set. -/
def winnerFlaggedRow : MetricRow :=
  { query_id := 1, llm_engine := "grok_web_search", brand := "on24",
    is_mentioned := true, mention_count := 1,
    first_mention_position := some 1, is_primary_recommendation := true,
    avg_sentiment_score := some 1, dominant_sentiment := some "positive",
    citation_count := 0, www_citation_count := 0, event_citation_count := 0,
    is_winner := true }

/- ===================================================================
   Provider-client retry policy (tenacity @retry decorators in
   src/benchmark/grok_client.py, claude_client.py, openai_client.py)
   =================================================================== -/

/-- The exception classes relevant to the clients' retry predicates. -/
inductive ApiError where
  | network (msg : String)
  | rateLimit (msg : String)
  | serverError (msg : String)
  | httpClientError (msg : String)
  | other (msg : String)
deriving Repr, DecidableEq

/-- Grok client retry predicate:
`retry_if_exception_type((requests.exceptions.RequestException,))`,
which covers connection errors and every `raise_for_status` HTTP error
(rate limit, server, and other status errors), but not other
exceptions. -/
def grokRetryable : ApiError → Bool
  | .network _ => true
  | .rateLimit _ => true
  | .serverError _ => true
  | .httpClientError _ => true
  | .other _ => false

/-- Claude client retry predicate: `retry_if_exception_type(
(anthropic.APIConnectionError, anthropic.RateLimitError,
anthropic.InternalServerError))`. -/
def claudeRetryable : ApiError → Bool
  | .network _ => true
  | .rateLimit _ => true
  | .serverError _ => true
  | .httpClientError _ => false
  | .other _ => false

/-- OpenAI client retry predicate:
`retry_if_exception_type((Exception,))`, every exception. -/
def openaiRetryable : ApiError → Bool := fun _ => true

/-- `wait_exponential(multiplier=2, min=4, max=60)`: the wait after
failed attempt n is multiplier·2^n clamped into [min, max].  For these
parameters every wait is integral, so the seconds are embedded as
naturals. -/
def waitExponential (n : Nat) : Nat :=
  max 4 (min 60 (2 * 2 ^ n))

/-- The outcome of a retried query: success at some attempt, retries
exhausted (tenacity raises RetryError carrying the final error after
`stop_after_attempt`), or a non-matching exception propagated
immediately.  Each outcome records the attempt it ended on and the
backoff waits slept before each retry. -/
inductive RetryOutcome (A : Type) where
  | ok (a : A) (attempt : Nat) (waits : List Nat)
  | exhausted (e : ApiError) (attempt : Nat) (waits : List Nat)
  | raised (e : ApiError) (attempt : Nat) (waits : List Nat)
deriving Repr, DecidableEq

/-- The attempt count a retried query ended on. -/
def retryAttempts {A : Type} : RetryOutcome A → Nat
  | .ok _ n _ => n
  | .exhausted _ n _ => n
  | .raised _ n _ => n

/-- The tenacity retry loop with `fuel` attempts remaining: run the
attempt; success returns, a non-matching exception propagates at once,
a matching exception retries after the exponential wait until the
attempt budget is spent, then the final error surfaces.  The zero-fuel
case is unreachable from a positive budget. -/
def tenacityGo {A : Type} (retryable : ApiError → Bool)
    (call : Nat → Except ApiError A) :
    Nat → Nat → List Nat → RetryOutcome A
  | 0, attempt, waits => .exhausted (.other "") attempt waits
  | fuel + 1, attempt, waits =>
    match call attempt with
    | .ok a => .ok a attempt waits
    | .error e =>
      if retryable e then
        if fuel = 0 then .exhausted e attempt waits
        else tenacityGo retryable call fuel (attempt + 1)
          (waits ++ [waitExponential attempt])
      else .raised e attempt waits

/-- A client `query` under its `@retry(stop=stop_after_attempt(3),
wait=wait_exponential(multiplier=2, min=4, max=60),
retry=retry_if_exception_type(...))` decorator: `call k` is the outcome
the undecorated body would produce on attempt k. -/
def tenacityQuery {A : Type} (retryable : ApiError → Bool)
    (call : Nat → Except ApiError A) : RetryOutcome A :=
  tenacityGo retryable call 3 1 []

/-- The body outcome used by the C8 witness: every attempt hits a rate
limit. -/
def alwaysRateLimited : Nat → Except ApiError String :=
  fun _ => .error (.rateLimit "429")

/-- A well-formed mention entry for the C10 witness. -/
def mentionGoodExample : Json :=
  .obj [("brand", .str "on24"), ("position", .num 1),
        ("context", .str "mentioned first"), ("sentiment", .str "positive"),
        ("sentiment_score", .num 1), ("is_primary_recommendation", .bool true)]

/-- A malformed mention entry (null sentiment_score) for the C10
witness. -/
def mentionBadExample : Json :=
  .obj [("brand", .str "zoom"), ("position", .num 2),
        ("sentiment", .str "neutral"), ("sentiment_score", .null)]

/-- The decoded object of the C10 witness: one well-formed and one
malformed mention entry. -/
def mentionFieldsExample : List (String × Json) :=
  [("mentions", Json.arr [mentionGoodExample, mentionBadExample]),
   ("brands_not_mentioned", Json.arr [Json.str "goldcast"]),
   ("overall_winner", Json.str "on24"),
   ("zoom_context_is_webinar", Json.bool true)]

/- ===================================================================
   Resumption (C2): structural lemmas about the run and its metrics
   =================================================================== -/

/-- The three brand rows stored for one response, in brand order. -/
def blockOf (r : ResponseRec) : List MetricRow :=
  TRACKED_BRANDS.map (metricRowOf r)

/-- The table shape the insert loop produces when no key collides. -/
def flatTable (P : List ResponseRec) : List MetricRow :=
  P.flatMap blockOf

/-- The winner flags of one response's block, as the per-group
selection assigns them. -/
def flaggedBlock (r : ResponseRec) : List MetricRow :=
  applyFlagsAux (winnerIndex (blockOf r)) (blockOf r) 0

/-- A deterministic always-succeeding environment for the C2 witness. -/
def c2Env : Nat × String → ItemOutcome := fun p =>
  .ok "model-1" "raw answer" "usage" [] []

/-- The completed subset of the C2 witness: the first engine's item. -/
def c2S : List (Nat × String) := [(1, "grok_web_search")]

/- ===================================================================
   Theorems
   =================================================================== -/

/-- C5 counterexample: the classifier as implemented assigns brand
"zoom" to a URL whose host merely contains "zoom.us" as a substring,
although no tracked brand domain is a suffix of the comparison host, so
the claim's suffix-matching description is false on the code. -/
theorem classify_suffix_counterexample :
    (classifyCitationDomain "https://zoom.us.evil.com/page").brand_association = "zoom" ∧
    ∀ p ∈ trackedDomainList,
      strEndsWith p.1 (specComparisonHost "https://zoom.us.evil.com/page") = false := by
  decide

/-- C5 (amended): the classifier keeps the full lowercased host as the
stored url_domain, and determines brand association by Python substring
containment of each tracked brand domain in the comparison host (the
lowercased host with all leading w and dot characters stripped), tested
in the order on24, goldcast, zoom, with "other" when none is contained. -/
theorem classify_brand_by_containment (url : String) :
    (classifyCitationDomain url).url_domain = pyLower (urlparseNetloc url) ∧
    ((classifyCitationDomain url).brand_association = "on24" ↔
      pyIn "on24.com" (codeComparisonHost url) = true) ∧
    ((classifyCitationDomain url).brand_association = "goldcast" ↔
      (pyIn "on24.com" (codeComparisonHost url) = false ∧
       pyIn "goldcast.io" (codeComparisonHost url) = true)) ∧
    ((classifyCitationDomain url).brand_association = "zoom" ↔
      (pyIn "on24.com" (codeComparisonHost url) = false ∧
       pyIn "goldcast.io" (codeComparisonHost url) = false ∧
       pyIn "zoom.us" (codeComparisonHost url) = true)) ∧
    ((classifyCitationDomain url).brand_association = "other" ↔
      (pyIn "on24.com" (codeComparisonHost url) = false ∧
       pyIn "goldcast.io" (codeComparisonHost url) = false ∧
       pyIn "zoom.us" (codeComparisonHost url) = false)) := by
  have hdom : (if urlparseNetloc url ≠ "" then
      lstripWWWDot (pyLower (urlparseNetloc url)) else "") = codeComparisonHost url := by
    by_cases h : urlparseNetloc url = "" <;> simp [h, codeComparisonHost, lstripWWWDot, pyLower]
  have hfull : (if urlparseNetloc url ≠ "" then pyLower (urlparseNetloc url) else "")
      = pyLower (urlparseNetloc url) := by
    by_cases h : urlparseNetloc url = "" <;> simp [h, pyLower]
  unfold classifyCitationDomain
  dsimp only
  rw [hdom, hfull]
  split_ifs with h1 h2 h3 <;>
    simp_all [Bool.not_eq_true, String.ext_iff]

/-- C6: whenever the classifier associates a URL with the dual-domain
brand on24, exactly one of the two domain-type flags is set (never both,
never neither); when the brand association is not on24, neither is set. -/
theorem on24_flag_exclusivity (url : String) :
    ((classifyCitationDomain url).brand_association = "on24" →
      (classifyCitationDomain url).is_on24_www ≠ (classifyCitationDomain url).is_on24_event) ∧
    ((classifyCitationDomain url).brand_association ≠ "on24" →
      (classifyCitationDomain url).is_on24_www = false ∧
      (classifyCitationDomain url).is_on24_event = false) := by
  unfold classifyCitationDomain
  dsimp only
  split_ifs with h1 h2 h3 <;> constructor <;> intro h <;> simp_all [String.ext_iff]

/-- C6 witness: concrete instantiations of both implications of
`on24_flag_exclusivity`: a www-domain on24 URL and a non-matching URL. -/
theorem on24_flag_exclusivity_witness :
    ((classifyCitationDomain "https://www.on24.com/about").is_on24_www ≠
      (classifyCitationDomain "https://www.on24.com/about").is_on24_event) ∧
    ((classifyCitationDomain "https://example.org/a").is_on24_www = false ∧
     (classifyCitationDomain "https://example.org/a").is_on24_event = false) :=
  ⟨(on24_flag_exclusivity "https://www.on24.com/about").1 (by decide),
   (on24_flag_exclusivity "https://example.org/a").2 (by decide)⟩

/-- If the loop body fails on some entry of the list, the whole loop of
`_normalize` fails (the first such failure aborts it). -/
theorem mapExcept_error_of_bad (f : Json → Except String NormMention)
    (pre post : List Json) (bad : Json) (h : ∃ e, f bad = .error e) :
    ∃ e, mapExcept f (pre ++ bad :: post) = .error e := by
  induction pre with
  | nil =>
    obtain ⟨e, he⟩ := h
    exact ⟨e, by simp [mapExcept, he]⟩
  | cons x xs ih =>
    obtain ⟨e2, he2⟩ := ih
    cases hfx : f x with
    | error e => exact ⟨e, by simp [mapExcept, hfx]⟩
    | ok y => exact ⟨e2, by simp [mapExcept, hfx, he2]⟩

/-- A malformed mention entry makes the loop body of `_normalize`
raise. -/
theorem processEntry_error_of_malformed (m : Json)
    (h : mentionEntryMalformed m = true) : ∃ e, processEntry m = .error e := by
  cases m with
  | obj fs =>
    unfold mentionEntryMalformed at h
    dsimp only at h
    cases hpf : pyFloat ((lookupFirst fs "sentiment_score").getD (.num 0)) with
    | ok q => rw [hpf] at h; exact absurd h (by simp)
    | error e =>
      cases hls : lowerStrip (pyOr ((lookupFirst fs "brand").getD .null)
          (pyOr ((lookupFirst fs "brand_id").getD .null) (.str "other"))) with
      | error e2 => exact ⟨e2, by simp [processEntry, hls]⟩
      | ok s => exact ⟨e, by simp [processEntry, hls, hpf]⟩
  | null => exact ⟨_, rfl⟩
  | bool b => exact ⟨_, rfl⟩
  | num q => exact ⟨_, rfl⟩
  | str s => exact ⟨_, rfl⟩
  | arr l => exact ⟨_, rfl⟩

/-- C3: whenever the parse pipeline fails — the secondary call or the
JSON decode raised, or `_normalize` raised on the decoded value — the
result of `parse_response` is the well-defined degraded record: no
mentions, all three tracked brands listed as not mentioned, overall
winner "none", and the error marker retained.  (The embedded
`parseResponse` is a total function: it never raises on any input.) -/
theorem parse_failure_is_degraded (r : Except String Json)
    (h : parsePipelineFails r = true) :
    (parseResponse r).mentions = [] ∧
    (parseResponse r).brands_not_mentioned =
      Json.arr [Json.str "on24", Json.str "goldcast", Json.str "zoom"] ∧
    (parseResponse r).overall_winner = Json.str "none" ∧
    (parseResponse r).parse_error.isSome = true := by
  cases r with
  | error e => exact ⟨rfl, rfl, rfl, rfl⟩
  | ok parsed =>
    unfold parsePipelineFails at h
    dsimp only at h
    unfold parseResponse
    dsimp only
    cases hn : normalizeParsed parsed with
    | error e => exact ⟨rfl, rfl, rfl, rfl⟩
    | ok res => rw [hn] at h; exact absurd h (by simp)

/-- C3 witness: a decoded value that is not even a JSON object (the
number 3) makes the pipeline fail, and the result is the degraded
record. -/
theorem parse_failure_is_degraded_witness :
    parsePipelineFails (.ok (Json.num 3)) = true ∧
    ((parseResponse (.ok (Json.num 3))).mentions = [] ∧
     (parseResponse (.ok (Json.num 3))).brands_not_mentioned =
       Json.arr [Json.str "on24", Json.str "goldcast", Json.str "zoom"] ∧
     (parseResponse (.ok (Json.num 3))).overall_winner = Json.str "none" ∧
     (parseResponse (.ok (Json.num 3))).parse_error.isSome = true) :=
  ⟨rfl, parse_failure_is_degraded (.ok (Json.num 3)) rfl⟩

/-- C10: if the decoded object's mention list contains one malformed
entry (not an object, or a sentiment_score on which float() raises),
the whole parse degrades: all mentions, including the well-formed ones,
are discarded and the fully degraded record is returned. -/
theorem malformed_mention_discards_all
    (fields : List (String × Json)) (pre post : List Json) (bad : Json)
    (hm : lookupFirst fields "mentions" = some (Json.arr (pre ++ bad :: post)))
    (hbad : mentionEntryMalformed bad = true) :
    (parseResponse (.ok (Json.obj fields))).mentions = [] ∧
    (parseResponse (.ok (Json.obj fields))).brands_not_mentioned =
      Json.arr [Json.str "on24", Json.str "goldcast", Json.str "zoom"] ∧
    (parseResponse (.ok (Json.obj fields))).overall_winner = Json.str "none" ∧
    (parseResponse (.ok (Json.obj fields))).parse_error.isSome = true := by
  obtain ⟨e, he⟩ :=
    mapExcept_error_of_bad processEntry pre post bad
      (processEntry_error_of_malformed bad hbad)
  have htr : truthy (Json.arr (pre ++ bad :: post)) = true := by
    simp [truthy]
  have hnorm : ∃ e2, normalizeParsed (Json.obj fields) = .error e2 := by
    unfold normalizeParsed
    dsimp only
    rw [hm]
    simp only [Option.getD_some, pyOr, htr, if_true, iterElems]
    rw [he]
    exact ⟨e, rfl⟩
  obtain ⟨e2, hn2⟩ := hnorm
  unfold parseResponse
  dsimp only
  rw [hn2]
  exact ⟨rfl, rfl, rfl, rfl⟩

/-- On well-formed rows the code's truthiness test for the position
coincides with the claim's positivity test, so the two scores agree. -/
theorem claimScore_eq_winnerScore (m : MetricRow)
    (h : metricRowWellFormed m = true) : claimScore m = winnerScore m := by
  unfold claimScore winnerScore
  unfold metricRowWellFormed at h
  cases hp : m.first_mention_position with
  | none => rfl
  | some p =>
    rw [hp] at h
    simp only [Bool.and_eq_true, decide_eq_true_eq] at h
    have h1 : (1 : ℤ) ≤ p := h.1
    have hpos : (0 : ℤ) < p := by omega
    have hne : p ≠ 0 := by omega
    simp [hpos, hne]

/-- A well-formed mentioned row always scores strictly above the -999
sentinel: the primary and position terms are nonnegative and the
sentiment term is at least -5. -/
theorem winnerScore_gt_sentinel (m : MetricRow)
    (h : metricRowWellFormed m = true) : (-999 : ℚ) < winnerScore m := by
  unfold metricRowWellFormed at h
  simp only [Bool.and_eq_true] at h
  unfold winnerScore
  have h1 : (0 : ℚ) ≤ (if m.is_primary_recommendation then (100 : ℚ) else 0) := by
    split <;> norm_num
  have h2 : (0 : ℚ) ≤ (match m.first_mention_position with
      | some p => if p ≠ 0 then 10 / (p : ℚ) else 0
      | none => 0) := by
    cases hp : m.first_mention_position with
    | none => norm_num
    | some p =>
      rw [hp] at h
      have hp1 : (1 : ℤ) ≤ p := by
        have := h.1
        simpa using this
      have hpv : (0 : ℚ) < (p : ℚ) := by
        have : (0 : ℤ) < p := by omega
        exact_mod_cast this
      have hne : p ≠ 0 := by omega
      simp only [hne, ne_eq, not_false_eq_true, if_true]
      positivity
  have h3 : (-5 : ℚ) ≤ (match m.avg_sentiment_score with
      | some s => s * 5
      | none => 0) := by
    cases hs : m.avg_sentiment_score with
    | none => norm_num
    | some s =>
      rw [hs] at h
      have hb : (-1 : ℚ) ≤ s ∧ s ≤ 1 := by
        have := h.2
        simpa using this
      dsimp only
      nlinarith [hb.1]
  linarith

/-- Complete characterization of the selection loop of
`_compute_winners`, by induction over the group: either no row ever
beat the incoming best score and the incoming best is returned, or the
result is the first row attaining the maximal score among mentioned
rows that beat the incoming best score. -/
theorem winnersFoldAux_spec (rows : List MetricRow) :
    ∀ (i0 : Nat) (best : Option Nat) (b : ℚ),
    (winnersFoldAux rows i0 best b = best ∧
      ∀ j (hj : j < rows.length), rows[j].is_mentioned = true →
        winnerScore rows[j] ≤ b) ∨
    (∃ k, ∃ hk : k < rows.length,
      winnersFoldAux rows i0 best b = some (i0 + k) ∧
      rows[k].is_mentioned = true ∧
      b < winnerScore rows[k] ∧
      (∀ j (hj : j < rows.length), rows[j].is_mentioned = true →
        winnerScore rows[j] ≤ winnerScore rows[k]) ∧
      (∀ j (hj : j < rows.length), j < k → rows[j].is_mentioned = true →
        winnerScore rows[j] < winnerScore rows[k])) := by
  induction rows with
  | nil =>
    intro i0 best b
    left
    exact ⟨rfl, fun j hj => absurd hj (by simp)⟩
  | cons m rest ih =>
    intro i0 best b
    by_cases hm : m.is_mentioned = true
    · by_cases hsc : b < winnerScore m
      · have hfold : winnersFoldAux (m :: rest) i0 best b =
            winnersFoldAux rest (i0 + 1) (some i0) (winnerScore m) := by
          simp [winnersFoldAux, hm, hsc]
        rcases ih (i0 + 1) (some i0) (winnerScore m) with
          ⟨heq, hall⟩ | ⟨k, hk, heq, hmk, hbk, hall, hstrict⟩
        · right
          refine ⟨0, by simp, ?_, ?_, ?_, ?_, ?_⟩
          · rw [hfold, heq]
            simp
          · simpa using hm
          · simpa using hsc
          · intro j hj hjm
            cases j with
            | zero => simp
            | succ j' =>
              have hj' : j' < rest.length := by
                simpa [Nat.succ_lt_succ_iff] using hj
              have := hall j' hj' (by simpa using hjm)
              simpa using this
          · intro j hj hj0 hjm
            omega
        · right
          refine ⟨k + 1, by simpa [Nat.succ_lt_succ_iff] using hk, ?_, ?_, ?_, ?_, ?_⟩
          · rw [hfold, heq]
            congr 1
            omega
          · simpa using hmk
          · have : b < winnerScore rest[k] := lt_trans hsc hbk
            simpa using this
          · intro j hj hjm
            cases j with
            | zero =>
              have : winnerScore m ≤ winnerScore rest[k] := le_of_lt hbk
              simpa using this
            | succ j' =>
              have hj' : j' < rest.length := by
                simpa [Nat.succ_lt_succ_iff] using hj
              have := hall j' hj' (by simpa using hjm)
              simpa using this
          · intro j hj hjlt hjm
            cases j with
            | zero =>
              simpa using hbk
            | succ j' =>
              have hj' : j' < rest.length := by
                simpa [Nat.succ_lt_succ_iff] using hj
              have := hstrict j' hj' (by omega) (by simpa using hjm)
              simpa using this
      · have hle : winnerScore m ≤ b := le_of_not_lt hsc
        have hfold : winnersFoldAux (m :: rest) i0 best b =
            winnersFoldAux rest (i0 + 1) best b := by
          simp [winnersFoldAux, hm, hsc]
        rcases ih (i0 + 1) best b with
          ⟨heq, hall⟩ | ⟨k, hk, heq, hmk, hbk, hall, hstrict⟩
        · left
          refine ⟨by rw [hfold, heq], ?_⟩
          intro j hj hjm
          cases j with
          | zero => simpa using hle
          | succ j' =>
            have hj' : j' < rest.length := by
              simpa [Nat.succ_lt_succ_iff] using hj
            have := hall j' hj' (by simpa using hjm)
            simpa using this
        · right
          refine ⟨k + 1, by simpa [Nat.succ_lt_succ_iff] using hk, ?_, ?_, ?_, ?_, ?_⟩
          · rw [hfold, heq]
            congr 1
            omega
          · simpa using hmk
          · simpa using hbk
          · intro j hj hjm
            cases j with
            | zero =>
              have : winnerScore m ≤ winnerScore rest[k] := le_trans hle (le_of_lt hbk)
              simpa using this
            | succ j' =>
              have hj' : j' < rest.length := by
                simpa [Nat.succ_lt_succ_iff] using hj
              have := hall j' hj' (by simpa using hjm)
              simpa using this
          · intro j hj hjlt hjm
            cases j with
            | zero =>
              have : winnerScore m < winnerScore rest[k] := lt_of_le_of_lt hle hbk
              simpa using this
            | succ j' =>
              have hj' : j' < rest.length := by
                simpa [Nat.succ_lt_succ_iff] using hj
              have := hstrict j' hj' (by omega) (by simpa using hjm)
              simpa using this
    · have hfold : winnersFoldAux (m :: rest) i0 best b =
          winnersFoldAux rest (i0 + 1) best b := by
        simp [winnersFoldAux, hm]
      rcases ih (i0 + 1) best b with
        ⟨heq, hall⟩ | ⟨k, hk, heq, hmk, hbk, hall, hstrict⟩
      · left
        refine ⟨by rw [hfold, heq], ?_⟩
        intro j hj hjm
        cases j with
        | zero => exact absurd (by simpa using hjm) hm
        | succ j' =>
          have hj' : j' < rest.length := by
            simpa [Nat.succ_lt_succ_iff] using hj
          have := hall j' hj' (by simpa using hjm)
          simpa using this
      · right
        refine ⟨k + 1, by simpa [Nat.succ_lt_succ_iff] using hk, ?_, ?_, ?_, ?_, ?_⟩
        · rw [hfold, heq]
          congr 1
          omega
        · simpa using hmk
        · simpa using hbk
        · intro j hj hjm
          cases j with
          | zero => exact absurd (by simpa using hjm) hm
          | succ j' =>
            have hj' : j' < rest.length := by
              simpa [Nat.succ_lt_succ_iff] using hj
            have := hall j' hj' (by simpa using hjm)
            simpa using this
        · intro j hj hjlt hjm
          cases j with
          | zero => exact absurd (by simpa using hjm) hm
          | succ j' =>
            have hj' : j' < rest.length := by
              simpa [Nat.succ_lt_succ_iff] using hj
            have := hstrict j' hj' (by omega) (by simpa using hjm)
            simpa using this

/-- C1: on a (query, provider) group of well-formed metric rows, the
winner selection of `_compute_winners` considers mentioned rows only,
returns no winner when no row is mentioned, returns a winner whenever
some row is mentioned, and the winner is the first row attaining the
maximal claim score (100 for primary + 10/position when present and
positive + 5·sentiment when present) among mentioned rows — ties broken
by first-seen order. -/
theorem winner_selection_correct (group : List MetricRow)
    (hwf : ∀ m ∈ group, metricRowWellFormed m = true) :
    ((∀ m ∈ group, m.is_mentioned = false) → winnerIndex group = none) ∧
    ((∃ m ∈ group, m.is_mentioned = true) → ∃ k, winnerIndex group = some k) ∧
    (∀ k, winnerIndex group = some k →
      ∃ hk : k < group.length,
        group[k].is_mentioned = true ∧
        (∀ j (hj : j < group.length), group[j].is_mentioned = true →
          claimScore group[j] ≤ claimScore group[k]) ∧
        (∀ j (hj : j < group.length), j < k → group[j].is_mentioned = true →
          claimScore group[j] < claimScore group[k])) := by
  rcases winnersFoldAux_spec group 0 none (-999) with
    ⟨heq, hall⟩ | ⟨k, hk, heq, hmk, hbk, hall, hstrict⟩
  · refine ⟨fun _ => heq, ?_, ?_⟩
    · rintro ⟨m, hmem, hment⟩
      obtain ⟨j, hj, hjm⟩ := List.mem_iff_getElem.mp hmem
      have hscore := hall j hj (by rw [hjm]; exact hment)
      have hgt := winnerScore_gt_sentinel group[j] (hwf _ (List.getElem_mem _))
      exact absurd hscore (not_le_of_lt hgt)
    · intro k hkeq
      rw [show winnerIndex group = winnersFoldAux group 0 none (-999) from rfl, heq] at hkeq
      exact absurd hkeq (by simp)
  · have heq0 : winnerIndex group = some k := by
      rw [show winnerIndex group = winnersFoldAux group 0 none (-999) from rfl, heq]
      simp
    refine ⟨?_, fun _ => ⟨k, heq0⟩, ?_⟩
    · intro hnone
      have := hnone group[k] (List.getElem_mem _)
      rw [hmk] at this
      exact absurd this (by simp)
    · intro k' hk'eq
      have hkk : k' = k := by
        rw [heq0] at hk'eq
        exact (Option.some_injective _ hk'eq.symm)
      subst hkk
      refine ⟨hk, hmk, ?_, ?_⟩
      · intro j hj hjm
        rw [claimScore_eq_winnerScore _ (hwf _ (List.getElem_mem _)),
          claimScore_eq_winnerScore _ (hwf _ (List.getElem_mem _))]
        exact hall j hj hjm
      · intro j hj hjlt hjm
        rw [claimScore_eq_winnerScore _ (hwf _ (List.getElem_mem _)),
          claimScore_eq_winnerScore _ (hwf _ (List.getElem_mem _))]
        exact hstrict j hj hjlt hjm

/-- C1 witness: on the concrete group the hypotheses hold and the
selection picks row 0, the maximal-score mentioned row. -/
theorem winner_selection_correct_witness :
    (∀ m ∈ winnerWitnessGroup, metricRowWellFormed m = true) ∧
    (∃ hk : 0 < winnerWitnessGroup.length,
      winnerWitnessGroup[0].is_mentioned = true ∧
      (∀ j (hj : j < winnerWitnessGroup.length),
        winnerWitnessGroup[j].is_mentioned = true →
        claimScore winnerWitnessGroup[j] ≤ claimScore winnerWitnessGroup[0]) ∧
      (∀ j (hj : j < winnerWitnessGroup.length), j < 0 →
        winnerWitnessGroup[j].is_mentioned = true →
        claimScore winnerWitnessGroup[j] < claimScore winnerWitnessGroup[0])) :=
  ⟨by decide,
   (winner_selection_correct winnerWitnessGroup (by decide)).2.2 0 (by
     norm_num [winnerIndex, winnersFoldAux, winnerScore, winnerWitnessGroup])⟩

/-- C7: on a fresh run, every work item is executed (one stored
response per work-set pair, so a failing item never aborts the run),
the run is marked completed after all items settle, and a pair whose
client call or normalization raised gets exactly the error-placeholder
response: model name 'error', empty text, serialized error metadata,
and no mention or citation rows. -/
theorem work_item_failure_isolated (env : Nat × String → ItemOutcome)
    (qs : List Nat) :
    (benchmarkRun env qs []).status = "completed" ∧
    (benchmarkRun env qs []).responses = (workPairs qs).map (runSingle env) ∧
    (∀ p msg, env p = .err msg →
      runSingle env p =
        { query_id := p.1, llm_engine := p.2, model_name := "error",
          raw_response := "", response_metadata := .errJson msg,
          mentions := [], citations := [] }) := by
  refine ⟨rfl, ?_, ?_⟩
  · show [] ++ (workItems [] qs).map (runSingle env) = (workPairs qs).map (runSingle env)
    simp [workItems, isCompletedIn]
  · intro p msg h
    unfold runSingle
    rw [h]

/-- C7 witness: the failing pair of the concrete environment stores
exactly the error placeholder. -/
theorem work_item_failure_isolated_witness :
    runSingle c7Env (1, "grok_web_search") =
      { query_id := 1, llm_engine := "grok_web_search", model_name := "error",
        raw_response := "", response_metadata := .errJson "boom",
        mentions := [], citations := [] } :=
  (work_item_failure_isolated c7Env [1]).2.2 (1, "grok_web_search") "boom" rfl

/-- Rows after the winner pass never score more than one flag per
group: positions past a flagged position can never match the single
chosen index again. -/
theorem applyFlagsAux_count_zero (k : Nat) (rows : List MetricRow) :
    ∀ i, k < i →
      (applyFlagsAux (some k) rows i).countP (fun m => m.is_winner) = 0 := by
  induction rows with
  | nil => intro i hi; rfl
  | cons m rest ih =>
    intro i hi
    have hne : ¬ (some k = some i) := by
      intro hc
      exact absurd (Option.some_injective _ hc) (by omega)
    simp [applyFlagsAux, List.countP_cons, hne, ih (i + 1) (by omega)]

/-- The winner pass with no selected row flags nothing. -/
theorem applyFlagsAux_none_count (rows : List MetricRow) :
    ∀ i, (applyFlagsAux none rows i).countP (fun m => m.is_winner) = 0 := by
  induction rows with
  | nil => intro i; rfl
  | cons m rest ih =>
    intro i
    simp [applyFlagsAux, List.countP_cons, ih (i + 1)]

/-- The winner pass with a selected row flags at most one row. -/
theorem applyFlagsAux_some_count (k : Nat) (rows : List MetricRow) :
    ∀ i, (applyFlagsAux (some k) rows i).countP (fun m => m.is_winner) ≤ 1 := by
  induction rows with
  | nil => intro i; simp [applyFlagsAux]
  | cons m rest ih =>
    intro i
    by_cases hk : k = i
    · subst hk
      simp [applyFlagsAux, List.countP_cons,
        applyFlagsAux_count_zero k rest (k + 1) (by omega)]
    · have hne : ¬ (some k = some i) := by
        intro hc
        exact absurd (Option.some_injective _ hc) hk
      simp [applyFlagsAux, List.countP_cons, hne]
      exact ih (i + 1)

/-- A row flagged by the winner pass is mentioned, provided the
selected position points at a mentioned row. -/
theorem applyFlagsAux_winner_mentioned (w : Option Nat) (rows : List MetricRow) :
    ∀ i, (∀ j (hj : j < rows.length), w = some (i + j) →
        rows[j].is_mentioned = true) →
      ∀ m ∈ applyFlagsAux w rows i, m.is_winner = true → m.is_mentioned = true := by
  induction rows with
  | nil => intro i _ m hm; exact absurd hm (by simp [applyFlagsAux])
  | cons r rest ih =>
    intro i hinv m hm hw
    rcases List.mem_cons.mp hm with hhead | htail
    · subst hhead
      simp only at hw
      have hwk : w = some i := of_decide_eq_true hw
      have := hinv 0 (by simp) (by simpa using hwk)
      simpa using this
    · refine ih (i + 1) ?_ m htail hw
      intro j hj heq
      have := hinv (j + 1) (by simpa [Nat.succ_lt_succ_iff] using hj)
        (by rw [heq]; congr 1; omega)
      simpa using this

/-- C4: after the winner pass on a (query, provider) group, the number
of rows with the winner flag set is 0 or 1, a flagged row is always a
mentioned row, and every daily-metric row is handed to storage with
the winner flag cleared. -/
theorem at_most_one_winner_per_group (group : List MetricRow) :
    ((applyWinnerFlags group).countP (fun m => m.is_winner) ≤ 1) ∧
    (∀ m ∈ applyWinnerFlags group, m.is_winner = true → m.is_mentioned = true) ∧
    (∀ resp b, (metricRowOf resp b).is_winner = false) := by
  refine ⟨?_, ?_, fun resp b => rfl⟩
  · unfold applyWinnerFlags
    cases hw : winnerIndex group with
    | none =>
      have := applyFlagsAux_none_count group 0
      omega
    | some k => exact applyFlagsAux_some_count k group 0
  · unfold applyWinnerFlags
    intro m hm hwin
    refine applyFlagsAux_winner_mentioned (winnerIndex group) group 0 ?_ m hm hwin
    intro j hj heq
    rcases winnersFoldAux_spec group 0 none (-999) with
      ⟨hnone, _⟩ | ⟨k, hk, hkeq, hmk, _, _, _⟩
    · rw [show winnerIndex group = winnersFoldAux group 0 none (-999) from rfl,
        hnone] at heq
      exact absurd heq (by simp)
    · rw [show winnerIndex group = winnersFoldAux group 0 none (-999) from rfl,
        hkeq] at heq
      have hjk : j = k := by
        have := Option.some_injective _ heq
        omega
      subst hjk
      exact hmk

/-- C4 witness: on the concrete group, at most one flag is set and the
flagged row (the group's first row, with its flag now true) is
mentioned. -/
theorem at_most_one_winner_per_group_witness :
    ((applyWinnerFlags winnerWitnessGroup).countP (fun m => m.is_winner) ≤ 1) ∧
    winnerFlaggedRow.is_mentioned = true := by
  have hw : winnerIndex winnerWitnessGroup = some 0 := by
    norm_num [winnerIndex, winnersFoldAux, winnerScore, winnerWitnessGroup]
  have heq : applyWinnerFlags winnerWitnessGroup =
      winnerFlaggedRow ::
        (applyFlagsAux (some 0) (winnerWitnessGroup.drop 1) 1) := by
    unfold applyWinnerFlags
    rw [hw]
    decide
  refine ⟨(at_most_one_winner_per_group winnerWitnessGroup).1, ?_⟩
  refine (at_most_one_winner_per_group winnerWitnessGroup).2.1 winnerFlaggedRow ?_ rfl
  rw [heq]
  exact List.mem_cons_self _ _

/-- C8: under any of the clients' retry predicates, a query makes at
most 3 attempts (never retries indefinitely); a success is a genuine
success of some attempt; exhaustion happens exactly at attempt 3 on a
retryable error, surfacing that final error after the exponential
backoff waits 4 and 8 seconds; and a non-retryable error propagates
from the very attempt that raised it, never swallowed. -/
theorem client_retry_bounded {A : Type} (retryable : ApiError → Bool)
    (call : Nat → Except ApiError A) :
    (retryAttempts (tenacityQuery retryable call) ≤ 3) ∧
    (∀ a n w, tenacityQuery retryable call = .ok a n w →
      1 ≤ n ∧ n ≤ 3 ∧ call n = .ok a) ∧
    (∀ e n w, tenacityQuery retryable call = .exhausted e n w →
      n = 3 ∧ call 3 = .error e ∧ retryable e = true ∧
      w = [waitExponential 1, waitExponential 2]) ∧
    (∀ e n w, tenacityQuery retryable call = .raised e n w →
      n ≤ 3 ∧ call n = .error e ∧ retryable e = false) := by
  unfold tenacityQuery
  cases h1 : call 1 with
  | ok a =>
    refine ⟨?_, ?_, ?_, ?_⟩ <;>
      simp [tenacityGo, h1, retryAttempts] <;> (intros; subst_vars; simp_all)
  | error e1 =>
    by_cases hr1 : retryable e1 = true
    · cases h2 : call 2 with
      | ok a =>
        refine ⟨?_, ?_, ?_, ?_⟩ <;>
          simp [tenacityGo, h1, h2, hr1, retryAttempts] <;> (intros; subst_vars; simp_all)
      | error e2 =>
        by_cases hr2 : retryable e2 = true
        · cases h3 : call 3 with
          | ok a =>
            refine ⟨?_, ?_, ?_, ?_⟩ <;>
              simp [tenacityGo, h1, h2, h3, hr1, hr2, retryAttempts] <;>
                intro e hh <;> simp_all
          | error e3 =>
            by_cases hr3 : retryable e3 = true
            · refine ⟨?_, ?_, ?_, ?_⟩ <;>
                simp [tenacityGo, h1, h2, h3, hr1, hr2, hr3, retryAttempts] <;>
                  (intros; subst_vars; simp_all)
            · refine ⟨?_, ?_, ?_, ?_⟩ <;>
                simp [tenacityGo, h1, h2, h3, hr1, hr2, hr3, retryAttempts] <;>
                  (intros; subst_vars; simp_all)
        · refine ⟨?_, ?_, ?_, ?_⟩ <;>
            simp [tenacityGo, h1, h2, hr1, hr2, retryAttempts] <;>
              (intros; subst_vars; simp_all)
    · refine ⟨?_, ?_, ?_, ?_⟩ <;>
        simp [tenacityGo, h1, hr1, retryAttempts] <;> (intros; subst_vars; simp_all)

/-- C8 witness: on a body that always hits the rate limit, the Grok
retry policy stops after exactly 3 attempts, surfaces the final rate
limit error, and slept the exponential waits 4 and 8. -/
theorem client_retry_bounded_witness :
    retryAttempts (tenacityQuery grokRetryable alwaysRateLimited) ≤ 3 ∧
    (3 = 3 ∧ alwaysRateLimited 3 = .error (.rateLimit "429") ∧
      grokRetryable (.rateLimit "429") = true ∧
      [4, 8] = [waitExponential 1, waitExponential 2]) :=
  ⟨(client_retry_bounded grokRetryable alwaysRateLimited).1,
   (client_retry_bounded grokRetryable alwaysRateLimited).2.2.1
     (.rateLimit "429") 3 [4, 8] (by decide)⟩

/-- C10 witness: the well-formed entry alone normalizes fine, yet with
the malformed sibling present the whole parse returns the degraded
record, discarding the well-formed mention too. -/
theorem malformed_mention_discards_all_witness :
    (processEntry mentionGoodExample).toOption.isSome = true ∧
    mentionEntryMalformed mentionBadExample = true ∧
    ((parseResponse (.ok (Json.obj mentionFieldsExample))).mentions = [] ∧
     (parseResponse (.ok (Json.obj mentionFieldsExample))).brands_not_mentioned =
       Json.arr [Json.str "on24", Json.str "goldcast", Json.str "zoom"] ∧
     (parseResponse (.ok (Json.obj mentionFieldsExample))).overall_winner =
       Json.str "none" ∧
     (parseResponse (.ok (Json.obj mentionFieldsExample))).parse_error.isSome = true) :=
  ⟨rfl, rfl,
   malformed_mention_discards_all mentionFieldsExample
     [mentionGoodExample] [] mentionBadExample rfl rfl⟩

theorem runSingle_query_id (env : Nat × String → ItemOutcome) (p : Nat × String) :
    (runSingle env p).query_id = p.1 := by
  unfold runSingle
  cases env p <;> rfl

theorem runSingle_llm_engine (env : Nat × String → ItemOutcome) (p : Nat × String) :
    (runSingle env p).llm_engine = p.2 := by
  unfold runSingle
  cases env p <;> rfl

theorem pairOf_runSingle (env : Nat × String → ItemOutcome) (p : Nat × String) :
    pairOf (runSingle env p) = p := by
  unfold pairOf
  rw [runSingle_query_id, runSingle_llm_engine]

theorem groupKey_metricRowOf (r : ResponseRec) (b : String) :
    groupKey (metricRowOf r b) = pairOf r := rfl

theorem metricKey_metricRowOf (r : ResponseRec) (b : String) :
    metricKey (metricRowOf r b) = (r.query_id, r.llm_engine, b) := rfl

theorem groupKey_of_mem_blockOf (r : ResponseRec) (t : MetricRow)
    (h : t ∈ blockOf r) : groupKey t = pairOf r := by
  obtain ⟨b, _, rfl⟩ := List.mem_map.mp h
  rfl

/-- An insert into a table holding no row of the incoming key is a
plain append. -/
theorem insertReplace_append (tbl : List MetricRow) (r : MetricRow)
    (h : ∀ t ∈ tbl, metricKey t ≠ metricKey r) :
    insertReplace tbl r = tbl ++ [r] := by
  unfold insertReplace
  congr 1
  rw [List.filter_eq_self]
  intro t ht
  simpa using h t ht

/-- Storing one response's three brand rows into a table holding no row
of that response's (query, provider) pair appends the block. -/
theorem brandFold_eq_append (tbl : List MetricRow) (r : ResponseRec)
    (h : ∀ t ∈ tbl, groupKey t ≠ pairOf r) :
    brandFold tbl r = tbl ++ blockOf r := by
  have hkey : ∀ t ∈ tbl, ∀ b : String, metricKey t ≠ metricKey (metricRowOf r b) := by
    intro t ht b hc
    apply h t ht
    have h1 : t.query_id = r.query_id := congrArg (fun k => k.1) hc
    have h2 : t.llm_engine = r.llm_engine := congrArg (fun k => k.2.1) hc
    simp [groupKey, pairOf, h1, h2]
  have hb1 : metricKey (metricRowOf r "on24") ≠ metricKey (metricRowOf r "goldcast") := by
    simp [metricKey_metricRowOf]
  have hb2 : metricKey (metricRowOf r "on24") ≠ metricKey (metricRowOf r "zoom") := by
    simp [metricKey_metricRowOf]
  have hb3 : metricKey (metricRowOf r "goldcast") ≠ metricKey (metricRowOf r "zoom") := by
    simp [metricKey_metricRowOf]
  have e1 : insertReplace tbl (metricRowOf r "on24")
      = tbl ++ [metricRowOf r "on24"] :=
    insertReplace_append tbl _ (fun t ht => hkey t ht "on24")
  have e2 : insertReplace (tbl ++ [metricRowOf r "on24"]) (metricRowOf r "goldcast")
      = (tbl ++ [metricRowOf r "on24"]) ++ [metricRowOf r "goldcast"] := by
    refine insertReplace_append _ _ ?_
    intro t ht
    rcases List.mem_append.mp ht with h' | h'
    · exact hkey t h' "goldcast"
    · rw [List.mem_singleton.mp h']
      exact hb1
  have e3 : insertReplace ((tbl ++ [metricRowOf r "on24"]) ++ [metricRowOf r "goldcast"])
        (metricRowOf r "zoom")
      = ((tbl ++ [metricRowOf r "on24"]) ++ [metricRowOf r "goldcast"])
        ++ [metricRowOf r "zoom"] := by
    refine insertReplace_append _ _ ?_
    intro t ht
    rcases List.mem_append.mp ht with h' | h'
    · rcases List.mem_append.mp h' with h'' | h''
      · exact hkey t h'' "zoom"
      · rw [List.mem_singleton.mp h'']
        exact hb2
    · rw [List.mem_singleton.mp h']
      exact hb3
  show TRACKED_BRANDS.foldl (fun t2 b => insertReplace t2 (metricRowOf r b)) tbl
      = tbl ++ blockOf r
  rw [show TRACKED_BRANDS = ["on24", "goldcast", "zoom"] from rfl]
  simp only [List.foldl]
  rw [e1, e2, e3]
  simp [blockOf, TRACKED_BRANDS]

/-- The insert loop over responses with pairwise distinct pairs, none
colliding with the accumulated table, appends block after block. -/
theorem foldl_brandFold_eq (P : List ResponseRec) :
    ∀ (tbl : List MetricRow),
      (∀ t ∈ tbl, ∀ r ∈ P, groupKey t ≠ pairOf r) →
      (P.map pairOf).Nodup →
      P.foldl brandFold tbl = tbl ++ flatTable P := by
  induction P with
  | nil => intro tbl _ _; simp [flatTable]
  | cons r P' ih =>
    intro tbl hdis hnd
    have hstep : brandFold tbl r = tbl ++ blockOf r :=
      brandFold_eq_append tbl r (fun t ht => hdis t ht r (by simp))
    have hnd' : (P'.map pairOf).Nodup := by
      simpa using hnd.of_cons
    have hrP' : ∀ r' ∈ P', pairOf r ≠ pairOf r' := by
      intro r' hr' hc
      have : pairOf r ∈ P'.map pairOf := by
        rw [hc]
        exact List.mem_map_of_mem _ hr'
      rw [List.map_cons] at hnd
      exact absurd this (List.nodup_cons.mp hnd).1
    have hdis' : ∀ t ∈ tbl ++ blockOf r, ∀ r' ∈ P', groupKey t ≠ pairOf r' := by
      intro t ht r' hr'
      rcases List.mem_append.mp ht with h' | h'
      · exact hdis t h' r' (by simp [hr'])
      · rw [groupKey_of_mem_blockOf r t h']
        exact hrP' r' hr'
    calc (r :: P').foldl brandFold tbl
        = P'.foldl brandFold (brandFold tbl r) := rfl
      _ = (tbl ++ blockOf r) ++ flatTable P' := by rw [hstep]; exact ih _ hdis' hnd'
      _ = tbl ++ flatTable (r :: P') := by simp [flatTable]

/-- With pairwise distinct response pairs the stored table is exactly
the concatenation of the per-response blocks. -/
theorem tableFold_eq_flatTable (P : List ResponseRec)
    (hnd : (P.map pairOf).Nodup) : tableFold P = flatTable P := by
  have := foldl_brandFold_eq P [] (by simp) hnd
  simpa [tableFold] using this

/-- The rows of one block under the group filter: all of them when the
pair matches, none otherwise. -/
theorem groupRows_block (r : ResponseRec) (k : Nat × String) :
    groupRows (blockOf r) k = if pairOf r = k then blockOf r else [] := by
  by_cases h : pairOf r = k
  · simp only [h, if_true]
    unfold groupRows
    rw [List.filter_eq_self]
    intro t ht
    rw [groupKey_of_mem_blockOf r t ht] at *
    simp [h]
  · simp only [h, if_false]
    unfold groupRows
    rw [List.filter_eq_nil]
    intro t ht
    rw [groupKey_of_mem_blockOf r t ht]
    simp [h]

theorem groupRows_append (A B : List MetricRow) (k : Nat × String) :
    groupRows (A ++ B) k = groupRows A k ++ groupRows B k := by
  simp [groupRows]

/-- A table of blocks whose pairs all differ from the key holds no row
of that group. -/
theorem groupRows_flatTable_nil (P : List ResponseRec) (k : Nat × String)
    (h : ∀ r ∈ P, pairOf r ≠ k) : groupRows (flatTable P) k = [] := by
  induction P with
  | nil => rfl
  | cons r P' ih =>
    have : flatTable (r :: P') = blockOf r ++ flatTable P' := by simp [flatTable]
    rw [this, groupRows_append, groupRows_block]
    simp only [h r (by simp), if_false]
    exact ih (fun r' hr' => h r' (by simp [hr']))

/-- In a table of blocks with pairwise distinct pairs, the rows of a
group are exactly the block of the response found for that pair. -/
theorem groupRows_flatTable (P : List ResponseRec)
    (hnd : (P.map pairOf).Nodup) (k : Nat × String) :
    groupRows (flatTable P) k =
      match P.find? (fun r => pairOf r = k) with
      | some r => blockOf r
      | none => [] := by
  induction P with
  | nil => rfl
  | cons r P' ih =>
    have hsplit : flatTable (r :: P') = blockOf r ++ flatTable P' := by
      simp [flatTable]
    have hnd' : (P'.map pairOf).Nodup := by simpa using hnd.of_cons
    by_cases h : pairOf r = k
    · have hP' : ∀ r' ∈ P', pairOf r' ≠ k := by
        intro r' hr' hc
        rw [List.map_cons] at hnd
        have : pairOf r ∈ P'.map pairOf := by
          rw [h, ← hc]
          exact List.mem_map_of_mem _ hr'
        exact absurd this (List.nodup_cons.mp hnd).1
      rw [hsplit, groupRows_append, groupRows_block]
      simp only [h, if_true]
      rw [groupRows_flatTable_nil P' k hP']
      simp [List.find?_cons, h]
    · rw [hsplit, groupRows_append, groupRows_block]
      simp only [h, if_false]
      rw [ih hnd']
      simp [List.find?_cons, h]

/-- The winner pass walks list segments independently, with the running
index advanced by the segment length. -/
theorem applyWinnersGo_append (tbl : List MetricRow) (l1 l2 : List MetricRow) :
    ∀ j, applyWinnersGo tbl (l1 ++ l2) j =
      applyWinnersGo tbl l1 j ++ applyWinnersGo tbl l2 (j + l1.length) := by
  induction l1 with
  | nil => intro j; simp [applyWinnersGo]
  | cons m rest ih =>
    intro j
    have harith : j + 1 + rest.length = j + (rest.length + 1) := by omega
    show applyWinnersGo tbl (m :: (rest ++ l2)) j = _
    simp only [applyWinnersGo, ih (j + 1), harith, List.cons_append,
      List.length_cons]

/-- The winner pass over one response's block inside the full table
assigns exactly the flags of the per-group selection on that block:
the block is its own (query, provider) group, and the positions the
pass counts within the table coincide with positions in the block. -/
theorem applyWinnersGo_block (Pb Pa : List ResponseRec) (r : ResponseRec)
    (hnd : ((Pb ++ r :: Pa).map pairOf).Nodup) :
    applyWinnersGo (flatTable (Pb ++ r :: Pa)) (blockOf r)
      (flatTable Pb).length = flaggedBlock r := by
  have hmap : (Pb ++ r :: Pa).map pairOf
      = Pb.map pairOf ++ pairOf r :: Pa.map pairOf := by simp
  rw [hmap] at hnd
  obtain ⟨hnd1, hnd2, hdisj⟩ := List.nodup_append.mp hnd
  have hPb : ∀ r' ∈ Pb, pairOf r' ≠ pairOf r := by
    intro r' hr' hc
    have hmem : pairOf r ∈ Pb.map pairOf := by
      rw [← hc]
      exact List.mem_map_of_mem _ hr'
    exact hdisj hmem (by simp)
  have hPa : ∀ r' ∈ Pa, pairOf r' ≠ pairOf r := by
    intro r' hr' hc
    have hmem : pairOf r ∈ Pa.map pairOf := by
      rw [← hc]
      exact List.mem_map_of_mem _ hr'
    exact (List.nodup_cons.mp hnd2).1 hmem
  have hsplit : flatTable (Pb ++ r :: Pa)
      = flatTable Pb ++ (blockOf r ++ flatTable Pa) := by
    simp [flatTable]
  have hAnil : groupRows (flatTable Pb) (pairOf r) = [] :=
    groupRows_flatTable_nil Pb _ hPb
  have hCnil : groupRows (flatTable Pa) (pairOf r) = [] :=
    groupRows_flatTable_nil Pa _ hPa
  have hgr : groupRows (flatTable (Pb ++ r :: Pa)) (pairOf r) = blockOf r := by
    rw [hsplit, groupRows_append, groupRows_append, hAnil, groupRows_block, hCnil]
    simp
  have htake : ∀ i, i ≤ (blockOf r).length →
      (flatTable (Pb ++ r :: Pa)).take ((flatTable Pb).length + i)
        = flatTable Pb ++ (blockOf r).take i := by
    intro i hi
    rw [hsplit, List.take_append_eq_append_take,
      List.take_of_length_le (by omega), List.take_append_eq_append_take]
    have h1 : (flatTable Pb).length + i - (flatTable Pb).length = i := by omega
    have h2 : i - (blockOf r).length = 0 := by omega
    rw [h1, h2]
    simp
  have hcount : ∀ i, i ≤ (blockOf r).length →
      (((flatTable (Pb ++ r :: Pa)).take ((flatTable Pb).length + i)).filter
        (fun t => groupKey t = pairOf r)).length = i := by
    intro i hi
    rw [htake i hi]
    show (groupRows (flatTable Pb ++ (blockOf r).take i) (pairOf r)).length = i
    rw [groupRows_append, hAnil]
    have hsub : groupRows ((blockOf r).take i) (pairOf r) = (blockOf r).take i := by
      unfold groupRows
      rw [List.filter_eq_self]
      intro t ht
      rw [groupKey_of_mem_blockOf r t (List.take_subset _ _ ht)]
      simp
    rw [hsub]
    simp only [List.nil_append, List.length_take]
    omega
  have hb : blockOf r
      = [metricRowOf r "on24", metricRowOf r "goldcast", metricRowOf r "zoom"] := by
    simp [blockOf, TRACKED_BRANDS]
  have hlen : (blockOf r).length = 3 := by rw [hb]; rfl
  have hc0 := hcount 0 (by omega)
  have hc1 := hcount 1 (by omega)
  have hc2 := hcount 2 (by omega)
  rw [Nat.add_zero] at hc0
  have hc2' : (((flatTable (Pb ++ r :: Pa)).take
        (((flatTable Pb).length + 1) + 1)).filter
        (fun t => groupKey t = pairOf r)).length = 2 := by
    have harith : ((flatTable Pb).length + 1) + 1 = (flatTable Pb).length + 2 := by
      omega
    rw [harith]
    exact hc2
  have hgr' : groupRows (flatTable (Pb ++ r :: Pa)) (pairOf r)
      = [metricRowOf r "on24", metricRowOf r "goldcast", metricRowOf r "zoom"] := by
    rw [hgr, hb]
  show applyWinnersGo (flatTable (Pb ++ r :: Pa)) (blockOf r)
      (flatTable Pb).length = applyFlagsAux (winnerIndex (blockOf r)) (blockOf r) 0
  rw [hb]
  simp only [applyWinnersGo, applyFlagsAux, groupKey_metricRowOf]
  simp only [hgr', hc0, hc1, hc2']

/-- The winner pass over a whole table of pairwise-distinct blocks acts
blockwise. -/
theorem applyWinnersGo_flatTable (P : List ResponseRec) :
    ∀ (Pb : List ResponseRec), ((Pb ++ P).map pairOf).Nodup →
      applyWinnersGo (flatTable (Pb ++ P)) (flatTable P) (flatTable Pb).length
        = P.flatMap flaggedBlock := by
  induction P with
  | nil => intro Pb h; simp [flatTable, applyWinnersGo]
  | cons r P' ih =>
    intro Pb hnd
    have hsplit : flatTable (r :: P') = blockOf r ++ flatTable P' := by
      simp [flatTable]
    rw [hsplit, applyWinnersGo_append]
    have h1 := applyWinnersGo_block Pb P' r hnd
    have hassoc : Pb ++ r :: P' = (Pb ++ [r]) ++ P' := by simp
    have h2 : applyWinnersGo (flatTable (Pb ++ r :: P')) (flatTable P')
        ((flatTable Pb).length + (blockOf r).length) = P'.flatMap flaggedBlock := by
      have hnd' : (((Pb ++ [r]) ++ P').map pairOf).Nodup := by
        rw [← hassoc]
        exact hnd
      have := ih (Pb ++ [r]) hnd'
      have hlen : (flatTable (Pb ++ [r])).length
          = (flatTable Pb).length + (blockOf r).length := by
        simp [flatTable]
      rw [hlen, ← hassoc] at this
      exact this
    rw [h1, h2]
    simp

/-- `_compute_winners` on a table of pairwise-distinct blocks flags
each block exactly as the per-group selection on that block. -/
theorem applyWinnersTable_flatTable (P : List ResponseRec)
    (hnd : (P.map pairOf).Nodup) :
    applyWinnersTable (flatTable P) = P.flatMap flaggedBlock := by
  have := applyWinnersGo_flatTable P [] (by simpa using hnd)
  simpa [applyWinnersTable, flatTable] using this

/-- The winner pass preserves every field except the flag, so group
keys survive it. -/
theorem groupKey_of_mem_applyFlagsAux (w : Option Nat) (rows : List MetricRow) :
    ∀ i m, m ∈ applyFlagsAux w rows i → ∃ m' ∈ rows, groupKey m = groupKey m' := by
  induction rows with
  | nil => intro i m hm; exact absurd hm (by simp [applyFlagsAux])
  | cons r rest ih =>
    intro i m hm
    rcases List.mem_cons.mp hm with hh | ht
    · exact ⟨r, by simp, by rw [hh]; rfl⟩
    · obtain ⟨m', hm', he⟩ := ih (i + 1) m ht
      exact ⟨m', by simp [hm'], he⟩

theorem groupKey_of_mem_flaggedBlock (r : ResponseRec) (m : MetricRow)
    (h : m ∈ flaggedBlock r) : groupKey m = pairOf r := by
  obtain ⟨m', hm', he⟩ := groupKey_of_mem_applyFlagsAux _ _ 0 m h
  rw [he]
  exact groupKey_of_mem_blockOf r m' hm'

/-- A full metric key determines the group key. -/
theorem groupKey_of_metricKey (m : MetricRow) (q : Nat) (e b : String)
    (h : metricKey m = (q, e, b)) : groupKey m = (q, e) := by
  have h1 : m.query_id = q := congrArg (fun k => k.1) h
  have h2 : m.llm_engine = e := congrArg (fun k => k.2.1) h
  simp [groupKey, h1, h2]

/-- A block of the wrong pair holds no row of a given full key. -/
theorem filter_flaggedBlock_nil (r : ResponseRec) (q : Nat) (e b : String)
    (h : pairOf r ≠ (q, e)) :
    (flaggedBlock r).filter (fun m => metricKey m = (q, e, b)) = [] := by
  rw [List.filter_eq_nil]
  intro m hm
  simp only [decide_eq_true_eq]
  intro hc
  rw [← groupKey_of_mem_flaggedBlock r m hm] at h
  exact h (groupKey_of_metricKey m q e b hc)

/-- Flagged blocks whose pairs all differ from a key hold no row of
that key. -/
theorem filter_flaggedFlatMap_nil (P : List ResponseRec) (q : Nat) (e b : String)
    (h : ∀ r ∈ P, pairOf r ≠ (q, e)) :
    (P.flatMap flaggedBlock).filter (fun m => metricKey m = (q, e, b)) = [] := by
  induction P with
  | nil => rfl
  | cons r P' ih =>
    have : (r :: P').flatMap flaggedBlock
        = flaggedBlock r ++ P'.flatMap flaggedBlock := by simp
    rw [this, List.filter_append, filter_flaggedBlock_nil r q e b (h r (by simp)),
      ih (fun r' hr' => h r' (by simp [hr']))]
    rfl

/-- Looking a (query, provider, brand) key up in the flagged table
finds it inside the block of the unique response of that pair. -/
theorem metricLookup_flagged_flatMap (P : List ResponseRec)
    (hnd : (P.map pairOf).Nodup) (q : Nat) (e b : String) :
    metricLookup (P.flatMap flaggedBlock) (q, e, b) =
      match P.find? (fun r => pairOf r = (q, e)) with
      | some r => ((flaggedBlock r).filter (fun m => metricKey m = (q, e, b))).head?
      | none => none := by
  induction P with
  | nil => rfl
  | cons r P' ih =>
    have hsplit : (r :: P').flatMap flaggedBlock
        = flaggedBlock r ++ P'.flatMap flaggedBlock := by simp
    have hnd' : (P'.map pairOf).Nodup := by simpa using hnd.of_cons
    by_cases h : pairOf r = (q, e)
    · have hP' : ∀ r' ∈ P', pairOf r' ≠ (q, e) := by
        intro r' hr' hc
        rw [List.map_cons] at hnd
        have : pairOf r ∈ P'.map pairOf := by
          rw [h, ← hc]
          exact List.mem_map_of_mem _ hr'
        exact absurd this (List.nodup_cons.mp hnd).1
      unfold metricLookup
      rw [hsplit, List.filter_append, filter_flaggedFlatMap_nil P' q e b hP']
      simp [List.find?_cons, h]
    · have hstep : metricLookup ((r :: P').flatMap flaggedBlock) (q, e, b)
          = metricLookup (P'.flatMap flaggedBlock) (q, e, b) := by
        unfold metricLookup
        rw [hsplit, List.filter_append, filter_flaggedBlock_nil r q e b h,
          List.nil_append]
      rw [hstep, ih hnd']
      simp [List.find?_cons, h]

/-- Finding the non-error response of a pair among stored responses:
because outcomes are a fixed function of the pair, a run that executed
the pairs X stores the non-error response of pair k exactly when k was
executed and its outcome is not the error placeholder. -/
theorem find_resp_nonError (env : Nat × String → ItemOutcome)
    (X : List (Nat × String)) (k : Nat × String) :
    (((X.map (runSingle env)).filter
        (fun r => r.model_name ≠ "error")).find?
        (fun r => pairOf r = k)) =
      if k ∈ X ∧ (runSingle env k).model_name ≠ "error"
      then some (runSingle env k) else none := by
  induction X with
  | nil => simp
  | cons x X' ih =>
    by_cases hme : (runSingle env x).model_name = "error"
    · have hdrop : ((x :: X').map (runSingle env)).filter
          (fun r => r.model_name ≠ "error")
          = (X'.map (runSingle env)).filter (fun r => r.model_name ≠ "error") := by
        simp [List.filter_cons, hme]
      rw [hdrop, ih]
      by_cases hk : x = k
      · subst hk
        simp [hme]
      · simp only [List.mem_cons]
        have hiff : (k = x ∨ k ∈ X') ↔ k ∈ X' := by
          constructor
          · rintro (h | h)
            · exact absurd h.symm hk
            · exact h
          · exact Or.inr
        simp only [hiff]
    · have hkeep : ((x :: X').map (runSingle env)).filter
          (fun r => r.model_name ≠ "error")
          = runSingle env x ::
            (X'.map (runSingle env)).filter (fun r => r.model_name ≠ "error") := by
        simp [List.filter_cons, hme]
      rw [hkeep]
      by_cases hk : x = k
      · subst hk
        have hpair : pairOf (runSingle env x) = x := pairOf_runSingle env x
        simp [List.find?_cons, hpair, hme]
      · have hpair : pairOf (runSingle env x) = x := pairOf_runSingle env x
        have hne : (decide (pairOf (runSingle env x) = k)) = false := by
          simp [hpair, hk]
        rw [List.find?_cons, hne, ih]
        simp only [List.mem_cons]
        have hiff : (k = x ∨ k ∈ X') ↔ k ∈ X' := by
          constructor
          · rintro (h | h)
            · exact absurd h.symm hk
            · exact h
          · exact Or.inr
        simp only [hiff]

/-- The completed-pair test over the responses of an executed pair list
is exactly membership, provided every executed pair stored a non-error
response. -/
theorem isCompletedIn_map (env : Nat × String → ItemOutcome)
    (S : List (Nat × String))
    (hSok : ∀ p ∈ S, (runSingle env p).model_name ≠ "error") (p : Nat × String) :
    isCompletedIn (S.map (runSingle env)) p = decide (p ∈ S) := by
  by_cases hp : p ∈ S
  · have : isCompletedIn (S.map (runSingle env)) p = true := by
      unfold isCompletedIn
      rw [List.any_eq_true]
      refine ⟨runSingle env p, List.mem_map_of_mem _ hp, ?_⟩
      simp [runSingle_query_id, runSingle_llm_engine, hSok p hp]
    rw [this]
    simp [hp]
  · have : isCompletedIn (S.map (runSingle env)) p = false := by
      unfold isCompletedIn
      rw [List.any_eq_false]
      rintro r hr
      obtain ⟨p', hp', rfl⟩ := List.mem_map.mp hr
      simp only [decide_eq_true_eq]
      rintro ⟨h1, h2, _⟩
      rw [runSingle_query_id] at h1
      rw [runSingle_llm_engine] at h2
      have : p' = p := Prod.ext h1 h2
      exact hp (this ▸ hp')
    rw [this]
    simp [hp]

/-- Membership in the work set. -/
theorem mem_workPairs (qs : List Nat) (p : Nat × String) :
    p ∈ workPairs qs ↔ p.1 ∈ qs ∧ p.2 ∈ ENGINES := by
  unfold workPairs
  rw [List.mem_flatMap]
  constructor
  · rintro ⟨q, hq, hp⟩
    obtain ⟨e, he, rfl⟩ := List.mem_map.mp hp
    exact ⟨hq, he⟩
  · rintro ⟨h1, h2⟩
    exact ⟨p.1, h1, List.mem_map.mpr ⟨p.2, h2, rfl⟩⟩

/-- The work set of distinct queries has no duplicate pairs. -/
theorem workPairs_nodup (qs : List Nat) (h : qs.Nodup) :
    (workPairs qs).Nodup := by
  induction qs with
  | nil => exact List.nodup_nil
  | cons q qs' ih =>
    have hsplit : workPairs (q :: qs')
        = ENGINES.map (fun e => (q, e)) ++ workPairs qs' := by
      simp [workPairs]
    rw [hsplit]
    refine List.Nodup.append ?_ (ih h.of_cons) ?_
    · refine List.Nodup.map ?_ (by decide)
      intro e1 e2 he
      exact (Prod.mk.injEq q e1 q e2 ▸ he).2
    · intro p hp1 hp2
      obtain ⟨e, _, rfl⟩ := List.mem_map.mp hp1
      have := (mem_workPairs qs' (q, e)).mp hp2
      exact (List.nodup_cons.mp h).1 this.1

/-- Stored responses of an executed pair list project back to those
pairs. -/
theorem map_pairOf_map_runSingle (env : Nat × String → ItemOutcome)
    (X : List (Nat × String)) :
    (X.map (runSingle env)).map pairOf = X := by
  rw [List.map_map]
  have : ∀ p ∈ X, (pairOf ∘ runSingle env) p = p := by
    intro p _
    exact pairOf_runSingle env p
  rw [List.map_congr_left this]
  simp

/-- Pairs of the non-error responses of an executed nodup pair list are
themselves without duplicates. -/
theorem nonError_pairs_nodup (env : Nat × String → ItemOutcome)
    (X : List (Nat × String)) (h : X.Nodup) :
    ((((X.map (runSingle env)).filter
        (fun r => r.model_name ≠ "error"))).map pairOf).Nodup := by
  have hsub : ((X.map (runSingle env)).filter
      (fun r => r.model_name ≠ "error")).Sublist (X.map (runSingle env)) :=
    List.filter_sublist _
  have hmapsub := hsub.map pairOf
  rw [map_pairOf_map_runSingle] at hmapsub
  exact h.sublist hmapsub

/-- C2: resuming a run whose stored responses are the non-error results
of a completed subset S of the work set W executes exactly the pairs
W \ S; when that difference is empty no item is executed and the run
still goes straight to aggregation and completion; and for every
(query, provider, brand) key the final DailyMetric row of the resumed
run equals that of a single uninterrupted run over W, given the same
per-pair outcomes. -/
theorem resumption_completeness (env : Nat × String → ItemOutcome)
    (qs : List Nat) (hqs : qs.Nodup)
    (S : List (Nat × String)) (hS : S.Nodup)
    (hSW : ∀ p ∈ S, p ∈ workPairs qs)
    (hSok : ∀ p ∈ S, (runSingle env p).model_name ≠ "error") :
    workItems (S.map (runSingle env)) qs
        = (workPairs qs).filter (fun p => !(decide (p ∈ S))) ∧
    (workItems (S.map (runSingle env)) qs = [] →
      (benchmarkRun env qs (S.map (runSingle env))).responses
          = S.map (runSingle env) ∧
      (benchmarkRun env qs (S.map (runSingle env))).status = "completed") ∧
    (∀ k, metricLookup (benchmarkRun env qs (S.map (runSingle env))).metrics k
        = metricLookup (benchmarkRun env qs []).metrics k) := by
  have hwi : workItems (S.map (runSingle env)) qs
      = (workPairs qs).filter (fun p => !(decide (p ∈ S))) := by
    unfold workItems
    refine List.filter_congr ?_
    intro p _
    rw [isCompletedIn_map env S hSok p]
  refine ⟨hwi, ?_, ?_⟩
  · intro hempty
    constructor
    · show S.map (runSingle env)
          ++ (workItems (S.map (runSingle env)) qs).map (runSingle env)
          = S.map (runSingle env)
      rw [hempty]
      simp
    · rfl
  · rintro ⟨q, e, b⟩
    have hWnd := workPairs_nodup qs hqs
    have hresp1 : (benchmarkRun env qs (S.map (runSingle env))).responses
        = (S ++ (workPairs qs).filter (fun p => !(decide (p ∈ S)))).map
            (runSingle env) := by
      show S.map (runSingle env)
          ++ (workItems (S.map (runSingle env)) qs).map (runSingle env) = _
      rw [hwi, List.map_append]
    have hwfull : workItems [] qs = workPairs qs := by
      simp [workItems, isCompletedIn]
    have hresp2 : (benchmarkRun env qs []).responses
        = (workPairs qs).map (runSingle env) := by
      show [] ++ (workItems [] qs).map (runSingle env) = _
      rw [hwfull]
      simp
    have hm1 : (benchmarkRun env qs (S.map (runSingle env))).metrics
        = computeDailyMetrics
            ((S ++ (workPairs qs).filter (fun p => !(decide (p ∈ S)))).map
              (runSingle env)) := by
      rw [show (benchmarkRun env qs (S.map (runSingle env))).metrics
          = computeDailyMetrics
              ((benchmarkRun env qs (S.map (runSingle env))).responses) from rfl,
        hresp1]
    have hm2 : (benchmarkRun env qs []).metrics
        = computeDailyMetrics ((workPairs qs).map (runSingle env)) := by
      rw [show (benchmarkRun env qs []).metrics
          = computeDailyMetrics ((benchmarkRun env qs []).responses) from rfl,
        hresp2]
    have hX1nd : (S ++ (workPairs qs).filter (fun p => !(decide (p ∈ S)))).Nodup := by
      refine List.Nodup.append hS (hWnd.filter _) ?_
      intro p hp1 hp2
      obtain ⟨-, hnot⟩ := List.mem_filter.mp hp2
      simp at hnot
      exact hnot hp1
    have key : ∀ (X : List (Nat × String)), X.Nodup →
        metricLookup (computeDailyMetrics (X.map (runSingle env))) (q, e, b) =
          (if (q, e) ∈ X ∧ (runSingle env (q, e)).model_name ≠ "error"
           then ((flaggedBlock (runSingle env (q, e))).filter
                  (fun m => metricKey m = (q, e, b))).head?
           else none) := by
      intro X hXnd
      have hP := nonError_pairs_nodup env X hXnd
      have h1 : computeDailyMetrics (X.map (runSingle env))
          = ((X.map (runSingle env)).filter
              (fun r => r.model_name ≠ "error")).flatMap flaggedBlock := by
        unfold computeDailyMetrics metricsTable
        rw [show responsesNonError (X.map (runSingle env))
            = (X.map (runSingle env)).filter (fun r => r.model_name ≠ "error")
            from rfl]
        rw [tableFold_eq_flatTable _ hP, applyWinnersTable_flatTable _ hP]
      rw [h1, metricLookup_flagged_flatMap _ hP q e b, find_resp_nonError env X (q, e)]
      by_cases hc : (q, e) ∈ X ∧ (runSingle env (q, e)).model_name ≠ "error"
      · simp [hc]
      · simp [hc]
    rw [hm1, hm2, key _ hX1nd, key _ hWnd]
    have hmem : ((q, e) ∈ S ++ (workPairs qs).filter (fun p => !(decide (p ∈ S))))
        ↔ ((q, e) ∈ workPairs qs) := by
      constructor
      · intro h
        rcases List.mem_append.mp h with h' | h'
        · exact hSW _ h'
        · exact (List.mem_filter.mp h').1
      · intro h
        by_cases hs : (q, e) ∈ S
        · exact List.mem_append.mpr (Or.inl hs)
        · refine List.mem_append.mpr (Or.inr ?_)
          rw [List.mem_filter]
          exact ⟨h, by simp [hs]⟩
    simp only [hmem]

/-- C2 witness: with query 1 and the grok item already completed,
resuming executes exactly the other two pairs, and the final metric row
of a sampled key matches the uninterrupted run's row. -/
theorem resumption_completeness_witness :
    (workItems (c2S.map (runSingle c2Env)) [1]
        = (workPairs [1]).filter (fun p => !(decide (p ∈ c2S)))) ∧
    (metricLookup (benchmarkRun c2Env [1] (c2S.map (runSingle c2Env))).metrics
        (1, "chatgpt_web_search", "on24")
      = metricLookup (benchmarkRun c2Env [1] []).metrics
        (1, "chatgpt_web_search", "on24")) :=
  ⟨(resumption_completeness c2Env [1] (by decide) c2S (by decide)
      (by decide) (by decide)).1,
   (resumption_completeness c2Env [1] (by decide) c2S (by decide)
      (by decide) (by decide)).2.2 (1, "chatgpt_web_search", "on24")⟩

